/-
Verification of the rtmalloc allocator core against its specification.

Shallow embedding of the relevant Rust sources:
  - src/size_class.rs  : size-class table, SMALL_LOOKUP, size_to_class
  - src/allocator.rs   : alloc dispatch, dealloc, realloc, alloc_large
  - src/pagemap.rs     : 3-level radix tree get/set
  - src/page_heap.rs   : allocate_span / deallocate_span / coalescing / growth
  - src/central_free_list.rs, src/transfer_cache.rs, src/thread_cache.rs

Machine integers are modelled as Nat; the places where wrap-around or
bit masking matters carry explicit `% 2^64` / bitwise operations.
-/
import Mathlib

namespace RtMalloc

/-! ## Configuration constants (build.rs defaults, config_gen.rs) -/

def PAGE_SHIFT : Nat := 13

def PAGE_SIZE : Nat := 1 <<< PAGE_SHIFT

def MAX_PAGES : Nat := 128

def MAX_TRANSFER_SLOTS : Nat := 64

def MAX_OVERAGES : Nat := 3

def MAX_DYNAMIC_FREE_LIST_LENGTH : Nat := 8192

/-! ## Size classes (src/size_class.rs) -/

structure SizeClassInfo where
  size : Nat
  pages : Nat
  batch_size : Nat
  deriving Repr, DecidableEq

def NUM_SIZE_CLASSES : Nat := 46

def MAX_SMALL_SIZE : Nat := 262144

/-- The size-class table from src/size_class.rs, index 0 a sentinel.
Entries are (size, pages, batch_size). -/
def SIZE_CLASSES : List SizeClassInfo :=
  [⟨0, 0, 0⟩,
   ⟨8, 1, 32⟩, ⟨16, 1, 32⟩, ⟨24, 1, 32⟩, ⟨32, 1, 32⟩,
   ⟨40, 1, 32⟩, ⟨48, 1, 32⟩, ⟨56, 1, 32⟩, ⟨64, 1, 32⟩,
   ⟨80, 1, 32⟩, ⟨96, 1, 32⟩, ⟨112, 1, 32⟩, ⟨128, 1, 32⟩,
   ⟨160, 1, 32⟩, ⟨192, 1, 32⟩, ⟨224, 1, 32⟩, ⟨256, 1, 32⟩,
   ⟨320, 1, 32⟩, ⟨384, 1, 32⟩, ⟨448, 1, 32⟩, ⟨512, 1, 32⟩,
   ⟨640, 1, 32⟩, ⟨768, 1, 32⟩, ⟨896, 1, 32⟩, ⟨1024, 1, 32⟩,
   ⟨1280, 2, 32⟩, ⟨1536, 2, 32⟩, ⟨1792, 2, 32⟩, ⟨2048, 2, 32⟩,
   ⟨2560, 4, 25⟩, ⟨3072, 4, 21⟩, ⟨3584, 4, 18⟩, ⟨4096, 4, 16⟩,
   ⟨5120, 5, 12⟩, ⟨6144, 6, 10⟩, ⟨7168, 7, 9⟩, ⟨8192, 8, 8⟩,
   ⟨10240, 10, 6⟩, ⟨12288, 12, 5⟩, ⟨16384, 16, 4⟩, ⟨20480, 20, 3⟩,
   ⟨32768, 16, 2⟩, ⟨40960, 20, 2⟩, ⟨65536, 32, 2⟩, ⟨131072, 32, 2⟩,
   ⟨262144, 64, 2⟩]

def sizeClassesGet (i : Nat) : SizeClassInfo :=
  SIZE_CLASSES.getD i ⟨0, 0, 0⟩

/-- Linear scan over a suffix of the class table starting at index
`cls`: first index whose size covers `size`, or `none` past the end.
This is the loop shared by the SMALL_LOOKUP initializer and the
`size > 1024` branch of `size_to_class`. -/
def scanClasses (cls size : Nat) : List SizeClassInfo → Option Nat
  | [] => none
  | c :: rest => if c.size ≥ size then some cls else scanClasses (cls + 1) size rest

def SMALL_LOOKUP_LEN : Nat := 129

/-- Entry `i` of the SMALL_LOOKUP table: the class for size `i * 8`
(size 0 for i = 0); the initializer clamps a failed scan to the last
class index. -/
def smallLookupEntry (i : Nat) : Nat :=
  let size := if i = 0 then 0 else i * 8
  (scanClasses 1 size (SIZE_CLASSES.drop 1)).getD (NUM_SIZE_CLASSES - 1)

/-- Map an allocation size to its size class (src/size_class.rs
`size_to_class`). The `size > 1024` branch scans classes from index 25;
a failed scan returns 0 (large allocation). -/
def size_to_class (size : Nat) : Nat :=
  if size = 0 then 1
  else if size > MAX_SMALL_SIZE then 0
  else if size ≤ 1024 then smallLookupEntry ((size + 7) / 8)
  else (scanClasses 25 size (SIZE_CLASSES.drop 25)).getD 0

def class_to_size (cls : Nat) : Nat :=
  (sizeClassesGet cls).size

def class_info (cls : Nat) : SizeClassInfo :=
  sizeClassesGet cls

/-! ## Top-level alloc dispatch (src/allocator.rs `RtMalloc::alloc`) -/

/-- Which path `alloc` takes for a layout. `sentinel a` stands for the
non-null pointer `layout.align()` returned for zero-size requests. -/
inductive AllocPath where
  | sentinel (addr : Nat)
  | small (cls : Nat)
  | large
  deriving Repr, DecidableEq

/-- Path dispatch of `RtMalloc::alloc` (allocator.rs lines 180-210). -/
def allocDispatch (size align : Nat) : AllocPath :=
  if size = 0 then .sentinel align
  else if align ≤ 8 then
    let cls := size_to_class size
    if cls ≠ 0 then .small cls else .large
  else
    let effective_size := max size align
    let cls := size_to_class effective_size
    if cls ≠ 0 then
      let class_size := class_to_size cls
      if align > PAGE_SIZE ∨ ¬ (class_size % align = 0) then .large
      else .small cls
    else .large

/-- Addresses of small objects carved out of a span
(central_free_list.rs `inject_span`): `base + i * obj_size` where `base`
is the span's page-aligned start address. -/
def smallObjAddr (base i objSize : Nat) : Nat :=
  base + i * objSize

/-- The aligned-address computation of the over-aligned large path
(allocator.rs line 449): `(start_addr + align - 1) & !(align - 1)` on a
64-bit usize; `!(align - 1)` is `2^64 - align` for `align ≥ 1`. -/
def alignUpMask (addr align : Nat) : Nat :=
  (addr + align - 1) &&& (2 ^ 64 - align)

/-- `Span::start_addr`: `start_page << PAGE_SHIFT` (span.rs line 56). -/
def spanStartAddr (startPage : Nat) : Nat :=
  startPage <<< PAGE_SHIFT

/-! ## Association-list maps

Small helpers used to model the page map (page id → span id), the span
slab (span id → record) and the page heap's indexed free lists. -/

def alGet {α : Type} : List (Nat × α) → Nat → Option α
  | [], _ => none
  | (k', v) :: rest, k => if k' = k then some v else alGet rest k

def alSet {α : Type} : List (Nat × α) → Nat → α → List (Nat × α)
  | [], k, v => [(k, v)]
  | (k', v') :: rest, k, v =>
      if k' = k then (k, v) :: rest else (k', v') :: alSet rest k v

def alRemove {α : Type} : List (Nat × α) → Nat → List (Nat × α)
  | [], _ => []
  | (k', v') :: rest, k =>
      if k' = k then alRemove rest k else (k', v') :: alRemove rest k

/-! ## Span records and the page-heap state (src/span.rs, src/page_heap.rs)

Span metadata records live in the span slab; the model keys them by a
never-reused numeric id (`nextId`), standing for the `*mut Span` of the
source.  The slab's recycling of `Span` structs is not observable
through the properties proved here, so freed ids are simply retired;
page-map entries left pointing at a retired id model the dangling
entries the source leaves at interior pages of coalesced spans. -/

inductive SpanSt where
  | free
  | inUse
  deriving Repr, DecidableEq

structure SpanRec where
  startPage : Nat
  numPages : Nat
  sizeClass : Nat
  state : SpanSt
  allocatedCount : Nat
  totalCount : Nat
  freelist : List Nat
  deriving Repr, DecidableEq

def SpanRec.endPage (r : SpanRec) : Nat :=
  r.startPage + r.numPages

/-- Page-heap state (page_heap.rs `PageHeap` plus the global page map and
the OS / span-slab collaborators it draws on).
`osSupply` lists the successive results of `platform::page_alloc`
(`some p` = a fresh region starting at page `p`; `none` = refusal);
`slabFuel` is the number of Span records the slab can still hand out
before it must request a fresh slab page from the OS. -/
structure PH where
  store : List (Nat × SpanRec)
  pmap : List (Nat × Nat)
  freeLists : List (Nat × List Nat)
  largeSpans : List Nat
  nextId : Nat
  slabFuel : Nat
  osSupply : List (Option Nat)
  deriving Repr, DecidableEq

/-- `PageMap::get` through the flat map view: absent = null. -/
def pmGet (st : PH) (page : Nat) : Option Nat :=
  alGet st.pmap page

/-- `PageMap::set` with a non-null span (node allocation is modelled in
the radix-tree embedding further down; on the page-heap paths modelled
here the touched leaves always exist already). -/
def pmSet (st : PH) (page sid : Nat) : PH :=
  { st with pmap := alSet st.pmap page sid }

/-- `PageMap::set` with null. -/
def pmClear (st : PH) (page : Nat) : PH :=
  { st with pmap := alRemove st.pmap page }

/-- `PageMap::register_span_endpoints` (pagemap.rs lines 146-153). -/
def registerSpanEndpoints (st : PH) (sid : Nat) : PH :=
  match alGet st.store sid with
  | none => st
  | some r =>
      let st1 := pmSet st r.startPage sid
      if r.numPages > 1 then pmSet st1 (r.startPage + r.numPages - 1) sid else st1

/-- `PageMap::register_span`: every covered page (pagemap.rs lines 129-135). -/
def registerSpan (st : PH) (sid : Nat) : PH :=
  match alGet st.store sid with
  | none => st
  | some r =>
      { st with
        pmap := (List.range r.numPages).foldl
          (fun pm k => alSet pm (r.startPage + k) sid) st.pmap }

/-- `PageMap::unregister_span` (pagemap.rs lines 159-165). -/
def unregisterSpan (st : PH) (sid : Nat) : PH :=
  match alGet st.store sid with
  | none => st
  | some r =>
      { st with
        pmap := (List.range r.numPages).foldl
          (fun pm k => alRemove pm (r.startPage + k)) st.pmap }

/-- `PageHeap::insert_free` (page_heap.rs lines 153-160). -/
def insertFree (st : PH) (sid : Nat) : PH :=
  match alGet st.store sid with
  | none => st
  | some r =>
      if r.numPages ≤ MAX_PAGES then
        { st with
          freeLists :=
            alSet st.freeLists r.numPages (sid :: (alGet st.freeLists r.numPages).getD []) }
      else { st with largeSpans := sid :: st.largeSpans }

/-- `SpanList::remove` on the free list that holds a span of `pages`
pages (page_heap.rs lines 269-274 / 304-309). -/
def freeListRemove (st : PH) (pages sid : Nat) : PH :=
  if pages ≤ MAX_PAGES then
    { st with
      freeLists :=
        alSet st.freeLists pages
          (((alGet st.freeLists pages).getD []).erase sid) }
  else { st with largeSpans := st.largeSpans.erase sid }

/-- `PageHeap::coalesce_left` (page_heap.rs lines 248-284). Returns the
surviving span id. A page-map entry whose span record is retired models
a dangling pointer into recycled metadata; the source's state/contiguity
checks on such memory never pass on the pages this function consults
(see the invariant theorem below), so the model treats the lookup as a
miss. -/
def coalesceLeft (st : PH) (sid : Nat) : PH × Nat :=
  match alGet st.store sid with
  | none => (st, sid)
  | some r =>
    if r.startPage = 0 then (st, sid)
    else
      match pmGet st (r.startPage - 1) with
      | none => (st, sid)
      | some lid =>
        match alGet st.store lid with
        | none => (st, sid)
        | some l =>
          if l.state ≠ SpanSt.free then (st, sid)
          else if l.startPage + l.numPages ≠ r.startPage then (st, sid)
          else
            let st1 := freeListRemove st l.numPages lid
            let st2 := { st1 with
              store := alSet st1.store lid { l with numPages := l.numPages + r.numPages } }
            let st3 := { st2 with store := alRemove st2.store sid }
            (st3, lid)

/-- `PageHeap::coalesce_right` (page_heap.rs lines 287-320). -/
def coalesceRight (st : PH) (sid : Nat) : PH × Nat :=
  match alGet st.store sid with
  | none => (st, sid)
  | some r =>
    match pmGet st r.endPage with
    | none => (st, sid)
    | some rid =>
      match alGet st.store rid with
      | none => (st, sid)
      | some rr =>
        if rr.state ≠ SpanSt.free then (st, sid)
        else if rr.startPage ≠ r.endPage then (st, sid)
        else
          let st1 := freeListRemove st rr.numPages rid
          let st2 := { st1 with
            store := alSet st1.store sid { r with numPages := r.numPages + rr.numPages } }
          let st3 := { st2 with store := alRemove st2.store rid }
          (st3, sid)

/-- `PageHeap::deallocate_span` (page_heap.rs lines 78-95). -/
def deallocateSpan (st : PH) (sid : Nat) : PH :=
  match alGet st.store sid with
  | none => st
  | some r =>
    let st1 := { st with
      store := alSet st.store sid
        { r with state := SpanSt.free, sizeClass := 0, freelist := [],
                 allocatedCount := 0, totalCount := 0 } }
    let p1 := coalesceLeft st1 sid
    let p2 := coalesceRight p1.1 p1.2
    let st4 := registerSpanEndpoints p2.1 p2.2
    insertFree st4 p2.2

/-! ## Page-heap allocation and OS growth (page_heap.rs, span.rs) -/

/-- `platform::page_alloc`: pop the next OS response. An exhausted
supply models further refusals. -/
def osPageAlloc (st : PH) : Option Nat × PH :=
  match st.osSupply with
  | [] => (none, st)
  | r :: rest => (r, { st with osSupply := rest })

/-- Number of Span records per 8 KiB slab page (span.rs: one page of
64-byte `Span` structs). -/
def SPANS_PER_SLAB : Nat := PAGE_SIZE / 64

/-- `span::alloc_span`: bump-allocate a Span record, requesting a fresh
slab page from the OS when the current slab is exhausted
(span.rs lines 175-208). Ids are fresh, never recycled. -/
def slabAllocSpan (st : PH) : Option Nat × PH :=
  if st.slabFuel > 0 then
    (some st.nextId, { st with nextId := st.nextId + 1, slabFuel := st.slabFuel - 1 })
  else
    match osPageAlloc st with
    | (none, st1) => (none, st1)
    | (some _, st1) =>
        (some st1.nextId,
         { st1 with nextId := st1.nextId + 1, slabFuel := SPANS_PER_SLAB - 1 })

/-- Shared tail of `carve_span`: mark in-use and register every page
(page_heap.rs lines 141-149). -/
def carveTail (st : PH) (sid : Nat) : PH :=
  match alGet st.store sid with
  | none => st
  | some r =>
      registerSpan { st with store := alSet st.store sid { r with state := SpanSt.inUse } } sid

/-- `PageHeap::carve_span` (page_heap.rs lines 99-150). -/
def carveSpan (st : PH) (sid numPages : Nat) : Nat × PH :=
  match alGet st.store sid with
  | none => (sid, st)
  | some r =>
    let total := r.numPages
    if total > numPages then
      match slabAllocSpan st with
      | (none, st1) =>
          -- cannot allocate span metadata: hand out the whole span
          (sid, carveTail st1 sid)
      | (some rid, st1) =>
          let rem : SpanRec :=
            { startPage := r.startPage + numPages, numPages := total - numPages,
              sizeClass := 0, state := SpanSt.free,
              allocatedCount := 0, totalCount := 0, freelist := [] }
          let st2 := { st1 with store := alSet st1.store rid rem }
          let st3 := { st2 with store := alSet st2.store sid { r with numPages := numPages } }
          let st4 := insertFree (registerSpanEndpoints st3 rid) rid
          (sid, carveTail st4 sid)
    else (sid, carveTail st sid)

/-- `PageHeap::grow_heap_exact` (page_heap.rs lines 223-245). -/
def growHeapExact (st : PH) (numPages : Nat) : Option Nat × PH :=
  match osPageAlloc st with
  | (none, st1) => (none, st1)
  | (some startPage, st1) =>
    match slabAllocSpan st1 with
    | (none, st2) => (none, st2)
    | (some sid, st2) =>
        let r : SpanRec :=
          { startPage := startPage, numPages := numPages, sizeClass := 0,
            state := SpanSt.inUse, allocatedCount := 0, totalCount := 0, freelist := [] }
        let st3 := { st2 with store := alSet st2.store sid r }
        (some sid, registerSpan st3 sid)

/-- `PageHeap::grow_heap` (page_heap.rs lines 183-220): request at least
128 pages; on OS refusal retry with exactly `numPages`. -/
def growHeap (st : PH) (numPages : Nat) : Option Nat × PH :=
  let allocPages := max numPages 128
  match osPageAlloc st with
  | (none, st1) =>
      if allocPages > numPages then growHeapExact st1 numPages else (none, st1)
  | (some startPage, st1) =>
    match slabAllocSpan st1 with
    | (none, st2) => (none, st2)
    | (some sid, st2) =>
        let r : SpanRec :=
          { startPage := startPage, numPages := allocPages, sizeClass := 0,
            state := SpanSt.inUse, allocatedCount := 0, totalCount := 0, freelist := [] }
        let st3 := { st2 with store := alSet st2.store sid r }
        let p := carveSpan st3 sid numPages
        (some p.1, p.2)

/-- The `for n in num_pages..=MAX_PAGES` search of `allocate_span`
(page_heap.rs lines 51-59): first index whose free list is nonempty, and
its head span. -/
def searchSmallLists (st : PH) : List Nat → Option (Nat × Nat)
  | [] => none
  | n :: rest =>
      match alGet st.freeLists n with
      | some (sid :: _) => some (n, sid)
      | _ => searchSmallLists st rest

/-- `PageHeap::find_best_large_span` (page_heap.rs lines 163-180):
best-fit scan with early exit on an exact match. -/
def findBestLargeGo (st : PH) (numPages : Nat) :
    List Nat → Option (Nat × Nat) → Option Nat
  | [], best => best.map Prod.fst
  | sid :: rest, best =>
      match alGet st.store sid with
      | none => findBestLargeGo st numPages rest best
      | some r =>
          let bestPages := (best.map Prod.snd).getD (2 ^ 64 - 1)
          if r.numPages ≥ numPages ∧ r.numPages < bestPages then
            if r.numPages = numPages then some sid
            else findBestLargeGo st numPages rest (some (sid, r.numPages))
          else findBestLargeGo st numPages rest best

def findBestLargeSpan (st : PH) (numPages : Nat) : Option Nat :=
  findBestLargeGo st numPages st.largeSpans none

/-- `PageHeap::allocate_span` (page_heap.rs lines 47-70). -/
def allocateSpan (st : PH) (numPages : Nat) : Option Nat × PH :=
  let hit :=
    if numPages ≤ MAX_PAGES then
      searchSmallLists st (List.range' numPages (MAX_PAGES + 1 - numPages))
    else none
  match hit with
  | some (n, sid) =>
      let st1 := freeListRemove st n sid
      let p := carveSpan st1 sid numPages
      (some p.1, p.2)
  | none =>
    match findBestLargeSpan st numPages with
    | some sid =>
        let st1 := { st with largeSpans := st.largeSpans.erase sid }
        let p := carveSpan st1 sid numPages
        (some p.1, p.2)
    | none => growHeap st numPages

/-! ## Top-level dealloc and realloc (src/allocator.rs) -/

/-- The continuation `dealloc` selects after its guard checks:
`ret` = returned without running any path, `smallPath` = hands the
object to `dealloc_small`, `pageHeapPath` = returned the span to the
page heap (already applied to the state). -/
inductive DeallocTail where
  | ret
  | smallPath (cls : Nat)
  | pageHeapPath
  deriving Repr, DecidableEq

/-- `RtMalloc::dealloc` (allocator.rs lines 213-237), with the small
path left as a labelled continuation (its effect lives in the front-end
caches, not in the page heap). -/
def deallocStep (st : PH) (ptr lsize : Nat) : PH × DeallocTail :=
  if lsize = 0 then (st, DeallocTail.ret)
  else
    match pmGet st (ptr >>> PAGE_SHIFT) with
    | none => (st, DeallocTail.ret)
    | some sid =>
      match alGet st.store sid with
      | none => (st, DeallocTail.ret)
      | some r =>
          if r.sizeClass ≠ 0 then (st, DeallocTail.smallPath r.sizeClass)
          else (deallocateSpan st sid, DeallocTail.pageHeapPath)

/-- Result of `RtMalloc::realloc`: `ptr a` = returned address `a` without
allocating; `freshAlloc` / `growCopy` = delegated to `alloc` (the
zero-size sub-case of the delegation, which returns the sentinel, is
folded into `ptr`). -/
inductive ReallocResult where
  | ptr (addr : Nat)
  | freshAlloc (size align : Nat)
  | growCopy (size align : Nat)
  deriving Repr, DecidableEq

/-- `ceil(size / PAGE_SIZE)` — the page count of the simple large path
(allocator.rs line 421, `size.div_ceil(PAGE_SIZE)`). -/
def largeNumPages (size : Nat) : Nat :=
  (size + PAGE_SIZE - 1) / PAGE_SIZE

/-- `RtMalloc::realloc` (allocator.rs lines 247-290). -/
def reallocStep (st : PH) (p lsize lalign newSize : Nat) : ReallocResult :=
  if p = 0 ∨ lsize = 0 then
    if newSize = 0 then ReallocResult.ptr lalign
    else ReallocResult.freshAlloc newSize lalign
  else if newSize = 0 then ReallocResult.ptr lalign
  else
    let oldUsable :=
      match pmGet st (p >>> PAGE_SHIFT) with
      | some sid =>
        match alGet st.store sid with
        | some r =>
            if r.sizeClass ≠ 0 then class_to_size r.sizeClass
            else r.numPages * PAGE_SIZE
        | none => lsize
      | none => lsize
    if newSize ≤ oldUsable then ReallocResult.ptr p
    else ReallocResult.growCopy newSize lalign

/-! ## Radix-tree page map (src/pagemap.rs)

The 3-level tree with 12/12/11-bit indices, modelled with explicit
node arrays.  `radixGet` uses fallible (`get?`) array access so that an
out-of-bounds access is observable as `none` at the outer option layer:
`radixGet m p = none` would mean a faulting array access, and
`radixGet m p = some v` means the source's `get` returns `v`
(`v = none` standing for a null `*mut Span`). -/

def ROOT_BITS : Nat := 12

def MID_BITS : Nat := 12

def LEAF_BITS : Nat := 11

def ROOT_LEN : Nat := 1 <<< ROOT_BITS

def MID_LEN : Nat := 1 <<< MID_BITS

def LEAF_LEN : Nat := 1 <<< LEAF_BITS

def MID_SHIFT : Nat := LEAF_BITS

def ROOT_SHIFT : Nat := LEAF_BITS + MID_BITS

def MID_MASK : Nat := (1 <<< MID_BITS) - 1

def LEAF_MASK : Nat := (1 <<< LEAF_BITS) - 1

structure LeafNode where
  spans : List (Option Nat)
  deriving Repr, DecidableEq

structure MidNode where
  children : List (Option LeafNode)
  deriving Repr, DecidableEq

structure RadixMap where
  root : List (Option MidNode)
  deriving Repr, DecidableEq

/-- Structural sizing: the statically allocated root has `ROOT_LEN`
slots; lazily allocated nodes are full-size and zeroed. -/
def RadixWF (m : RadixMap) : Prop :=
  m.root.length = ROOT_LEN ∧
  (∀ mid ∈ m.root, ∀ n ∈ mid, n.children.length = MID_LEN) ∧
  (∀ mid ∈ m.root, ∀ n ∈ mid, ∀ leaf ∈ n.children, ∀ l ∈ leaf, l.spans.length = LEAF_LEN)

/-- `PageMap::new()`: all root entries null. -/
def radixEmpty : RadixMap :=
  ⟨List.replicate ROOT_LEN none⟩

/-- `PageMap::get` (pagemap.rs lines 71-91). -/
def radixGet (m : RadixMap) (pageId : Nat) : Option (Option Nat) :=
  let rootIdx := pageId >>> ROOT_SHIFT
  let midIdx := (pageId >>> MID_SHIFT) &&& MID_MASK
  let leafIdx := pageId &&& LEAF_MASK
  if rootIdx ≥ ROOT_LEN then some none
  else
    match m.root.get? rootIdx with
    | none => none
    | some none => some none
    | some (some mid) =>
      match mid.children.get? midIdx with
      | none => none
      | some none => some none
      | some (some leaf) =>
        match leaf.spans.get? leafIdx with
        | none => none
        | some v => some v

/-- How `PageMap::set` can abort: the `assert!` on the root index and
the two `assert!`s that fire when `page_alloc` refuses to provide a
mid/leaf node (pagemap.rs lines 103, 109, 118). -/
inductive PmPanic where
  | rootOutOfRange
  | midAllocFailed
  | leafAllocFailed
  deriving Repr, DecidableEq

/-- `PageMap::set` (pagemap.rs lines 98-123). `nodeSupply` lists the
successive results of the `platform::page_alloc` calls used for missing
mid/leaf nodes (`false` = the OS returned null). -/
def radixSet (m : RadixMap) (nodeSupply : List Bool) (pageId : Nat) (v : Option Nat) :
    Except PmPanic (RadixMap × List Bool) :=
  let rootIdx := pageId >>> ROOT_SHIFT
  let midIdx := (pageId >>> MID_SHIFT) &&& MID_MASK
  let leafIdx := pageId &&& LEAF_MASK
  if rootIdx ≥ ROOT_LEN then Except.error PmPanic.rootOutOfRange
  else
    -- ensure the mid node exists (alloc_mid_node + assert on failure)
    let ensureMid : Except PmPanic (MidNode × List Bool) :=
      match (m.root.get? rootIdx).join with
      | some mid => Except.ok (mid, nodeSupply)
      | none =>
        match nodeSupply with
        | true :: rest => Except.ok (⟨List.replicate MID_LEN none⟩, rest)
        | _ => Except.error PmPanic.midAllocFailed
    match ensureMid with
    | Except.error e => Except.error e
    | Except.ok (mid, supply1) =>
      -- ensure the leaf node exists (alloc_leaf_node + assert on failure)
      let ensureLeaf : Except PmPanic (LeafNode × List Bool) :=
        match (mid.children.get? midIdx).join with
        | some leaf => Except.ok (leaf, supply1)
        | none =>
          match supply1 with
          | true :: rest => Except.ok (⟨List.replicate LEAF_LEN none⟩, rest)
          | _ => Except.error PmPanic.leafAllocFailed
      match ensureLeaf with
      | Except.error e => Except.error e
      | Except.ok (leaf, supply2) =>
        let leaf1 : LeafNode := ⟨leaf.spans.set leafIdx v⟩
        let mid1 : MidNode := ⟨mid.children.set midIdx (some leaf1)⟩
        Except.ok (⟨m.root.set rootIdx (some mid1)⟩, supply2)

/-! ## Central free list (src/central_free_list.rs)

The per-class state: all spans registered to the class (`spans`, keyed
by span id), the ids with a nonempty intrusive freelist (`nonempty`),
and the running free-object count.  The page heap behind it is
abstracted to a supply: each `allocate_span(info.pages)` response is
either `none` (OOM) or the object list that `inject_span` would carve
out of the returned span.  Every page-heap call is recorded as an event
tagged with whether the per-class central lock is held at that moment;
the plain `remove_range` / `insert_range` methods run entirely inside
`central.get(class).lock()`, so their calls carry `true`. -/

structure CflSpan where
  freelist : List Nat
  allocatedCount : Nat
  totalCount : Nat
  deriving Repr, DecidableEq

structure CentralState where
  spans : List (Nat × CflSpan)
  nonempty : List Nat
  numFree : Nat
  nextSpanId : Nat
  deriving Repr, DecidableEq

/-- A call into the page heap, tagged with whether the central-class
lock is held when it is made. -/
inductive PhEvent where
  | allocSpanCall (centralLockHeld : Bool)
  | deallocSpanCall (centralLockHeld : Bool)
  deriving Repr, DecidableEq

/-- The inner `while count < batch_size && !(*span).freelist.is_null()`
pop loop (central_free_list.rs lines 67-75 / 219-227). Objects are
pushed onto `head`; returns (count, head, remaining freelist). -/
def drainSpan : Nat → Nat → List Nat → List Nat → Nat × List Nat × List Nat
  | _, count, head, [] => (count, head, [])
  | need, count, head, o :: rest =>
      if count < need then drainSpan need (count + 1) (o :: head) rest
      else (count, head, o :: rest)

/-- The collect phase of `remove_range`: drain the head spans of the
nonempty list until the request is met or the list is exhausted
(central_free_list.rs lines 57-81 phase on existing spans; identical to
phase 1 of `remove_range_dropping_lock`, lines 213-240). -/
def cflCollect (spans : List (Nat × CflSpan)) (numFree need count : Nat)
    (head : List Nat) :
    List Nat → List (Nat × CflSpan) × List Nat × Nat × Nat × List Nat
  | [] => (spans, [], numFree, count, head)
  | sid :: restIds =>
      if count < need then
        match alGet spans sid with
        | none => (spans, sid :: restIds, numFree, count, head)
        | some sp =>
          let d := drainSpan need count head sp.freelist
          let taken := d.1 - count
          let sp1 : CflSpan :=
            { sp with freelist := d.2.2, allocatedCount := sp.allocatedCount + taken }
          let spans1 := alSet spans sid sp1
          let numFree1 := numFree - taken
          if d.2.2 = [] then cflCollect spans1 numFree1 need d.1 d.2.1 restIds
          else (spans1, sid :: restIds, numFree1, d.1, d.2.1)
      else (spans, sid :: restIds, numFree, count, head)

/-- `CentralFreeList::inject_span` (central_free_list.rs lines 152-189),
with the carved object list supplied by the page-heap abstraction. -/
def cflInjectSpan (st : CentralState) (objs : List Nat) : CentralState :=
  { st with
    spans := alSet st.spans st.nextSpanId ⟨objs, 0, objs.length⟩,
    nonempty := st.nextSpanId :: st.nonempty,
    numFree := st.numFree + objs.length,
    nextSpanId := st.nextSpanId + 1 }

/-- The collect phase applied to a whole `CentralState`. -/
def cflCollectStep (st : CentralState) (need count : Nat) (head : List Nat) :
    CentralState × Nat × List Nat :=
  let c := cflCollect st.spans st.numFree need count head st.nonempty
  ({ st with spans := c.1, nonempty := c.2.1, numFree := c.2.2.1 },
   c.2.2.2.1, c.2.2.2.2)

/-- `CentralFreeList::remove_range` (central_free_list.rs lines 48-84):
runs with the central lock held, so `populate`'s page-heap call is made
with the lock held. The loop is driven by the page-heap supply. -/
def cflRemoveRange (need : Nat) :
    List (Option (List Nat)) → CentralState → Nat → List Nat → List PhEvent →
    (Nat × List Nat) × CentralState × List PhEvent
  | [], st, count, head, events =>
      let c := cflCollectStep st need count head
      if c.2.1 ≥ need then ((c.2.1, c.2.2), c.1, events)
      else ((c.2.1, c.2.2), c.1, events ++ [PhEvent.allocSpanCall true])
  | none :: _, st, count, head, events =>
      let c := cflCollectStep st need count head
      if c.2.1 ≥ need then ((c.2.1, c.2.2), c.1, events)
      else ((c.2.1, c.2.2), c.1, events ++ [PhEvent.allocSpanCall true])
  | some objs :: rest, st, count, head, events =>
      let c := cflCollectStep st need count head
      if c.2.1 ≥ need then ((c.2.1, c.2.2), c.1, events)
      else
        cflRemoveRange need rest (cflInjectSpan c.1 objs) c.2.1 c.2.2
          (events ++ [PhEvent.allocSpanCall true])

/-- `remove_range_dropping_lock` (central_free_list.rs lines 200-254):
phase 1 collects under the lock, the lock is dropped, and only then is
`allocate_span` called — the page-heap events carry `false`. -/
def cflRemoveRangeDroppingLock (need : Nat) :
    List (Option (List Nat)) → CentralState → Nat → List Nat → List PhEvent →
    (Nat × List Nat) × CentralState × List PhEvent
  | [], st, count, head, events =>
      let c := cflCollectStep st need count head
      if c.2.1 ≥ need then ((c.2.1, c.2.2), c.1, events)
      else ((c.2.1, c.2.2), c.1, events ++ [PhEvent.allocSpanCall false])
  | none :: _, st, count, head, events =>
      let c := cflCollectStep st need count head
      if c.2.1 ≥ need then ((c.2.1, c.2.2), c.1, events)
      else ((c.2.1, c.2.2), c.1, events ++ [PhEvent.allocSpanCall false])
  | some objs :: rest, st, count, head, events =>
      let c := cflCollectStep st need count head
      if c.2.1 ≥ need then ((c.2.1, c.2.2), c.1, events)
      else
        cflRemoveRangeDroppingLock need rest (cflInjectSpan c.1 objs) c.2.1 c.2.2
          (events ++ [PhEvent.allocSpanCall false])

/-- One object's worth of `insert_range` (central_free_list.rs lines
102-136, shared with the dropping variant lines 277-313): look up the
owning span via `spanOf` (the page-map view), push the object onto the
span's freelist, re-add a previously-full span to the nonempty list,
and detect a span that became fully free while another nonempty span is
cached.  Returns the new state and `some sid` exactly when the span was
removed and must go back to the page heap. -/
def cflInsertStep (spanOf : Nat → Option Nat) (st : CentralState) (obj : Nat) :
    CentralState × Option Nat :=
  match spanOf obj with
  | none => (st, none)
  | some sid =>
    match alGet st.spans sid with
    | none => (st, none)
    | some sp =>
      let wasFull := sp.freelist = []
      let sp1 : CflSpan :=
        { sp with freelist := obj :: sp.freelist,
                  allocatedCount := sp.allocatedCount - 1 }
      let st1 : CentralState :=
        { st with spans := alSet st.spans sid sp1,
                  numFree := st.numFree + 1,
                  nonempty := if wasFull then sid :: st.nonempty else st.nonempty }
      if sp1.allocatedCount = 0 ∧ st1.nonempty.length > 1 then
        let st2 : CentralState :=
          { st1 with nonempty := st1.nonempty.erase sid,
                     numFree := st1.numFree - sp1.totalCount,
                     spans := alRemove st1.spans sid }
        (st2, some sid)
      else (st1, none)

/-- `CentralFreeList::insert_range` (central_free_list.rs lines 93-138):
fully-free spans go to the page heap immediately — with the lock held. -/
def cflInsertRange (spanOf : Nat → Option Nat) :
    List Nat → Nat → CentralState → List PhEvent → CentralState × List PhEvent
  | [], _, st, events => (st, events)
  | _ :: _, 0, st, events => (st, events)
  | obj :: rest, remaining + 1, st, events =>
      match cflInsertStep spanOf st obj with
      | (st1, none) => cflInsertRange spanOf rest remaining st1 events
      | (st1, some _) =>
          cflInsertRange spanOf rest remaining st1
            (events ++ [PhEvent.deallocSpanCall true])

/-- `MAX_FREED` of `insert_range_dropping_lock`. -/
def MAX_FREED : Nat := 8

/-- Phase 1 of `insert_range_dropping_lock` (central_free_list.rs lines
272-315): the first `MAX_FREED` fully-freed spans are stashed for
phase 2; overflow beyond that is returned to the page heap immediately,
still holding the lock.  Returns the state, the stashed spans and the
overflow events. -/
def cflInsertPhase1 (spanOf : Nat → Option Nat) :
    List Nat → Nat → CentralState → List Nat → List PhEvent →
    CentralState × List Nat × List PhEvent
  | [], _, st, freed, events => (st, freed, events)
  | _ :: _, 0, st, freed, events => (st, freed, events)
  | obj :: rest, remaining + 1, st, freed, events =>
      match cflInsertStep spanOf st obj with
      | (st1, none) => cflInsertPhase1 spanOf rest remaining st1 freed events
      | (st1, some sid) =>
          if freed.length < MAX_FREED then
            cflInsertPhase1 spanOf rest remaining st1 (freed ++ [sid]) events
          else
            cflInsertPhase1 spanOf rest remaining st1 freed
              (events ++ [PhEvent.deallocSpanCall true])

/-- `insert_range_dropping_lock` (central_free_list.rs lines 261-322):
phase 1 under the lock, then the stashed spans go to the page heap with
the lock released. Also returns the total number of spans that became
fully free during the call. -/
def cflInsertRangeDroppingLock (spanOf : Nat → Option Nat) (st : CentralState)
    (objs : List Nat) (count : Nat) :
    CentralState × Nat × List PhEvent :=
  let p := cflInsertPhase1 spanOf objs count st [] []
  let freed := p.2.1
  let overflowEvents := p.2.2
  (p.1, freed.length + overflowEvents.length,
   overflowEvents ++ freed.map (fun _ => PhEvent.deallocSpanCall false))

/-! ## Transfer cache (src/transfer_cache.rs) -/

/-- Per-class transfer cache: a LIFO stack of at most
`MAX_TRANSFER_SLOTS` batches, each stored as its object list. -/
structure XferState where
  slots : List (List Nat)
  deriving Repr, DecidableEq

/-- `TransferCacheArray::remove_range` (transfer_cache.rs lines 90-119):
on a cache hit the full batch is returned and the reported count is
`class_info(size_class).batch_size` — regardless of `count`; otherwise
the request goes to `remove_range_dropping_lock`. -/
def xferRemoveRange (tc : XferState) (sizeClass count : Nat) (central : CentralState)
    (supply : List (Option (List Nat))) :
    (Nat × List Nat) × XferState × CentralState × List PhEvent :=
  let batchSize := (class_info sizeClass).batch_size
  match tc.slots with
  | batch :: rest => ((batchSize, batch), ⟨rest⟩, central, [])
  | [] =>
      let r := cflRemoveRangeDroppingLock count supply central 0 [] []
      (r.1, ⟨[]⟩, r.2.1, r.2.2)

/-- `TransferCacheArray::insert_range` (transfer_cache.rs lines 130-162). -/
def xferInsertRange (tc : XferState) (sizeClass : Nat) (batch : List Nat)
    (count : Nat) (spanOf : Nat → Option Nat) (central : CentralState) :
    XferState × CentralState × Nat × List PhEvent :=
  let batchSize := (class_info sizeClass).batch_size
  if count = batchSize ∧ tc.slots.length < MAX_TRANSFER_SLOTS then
    (⟨batch :: tc.slots⟩, central, 0, [])
  else
    let r := cflInsertRangeDroppingLock spanOf central batch count
    (tc, r.1, r.2.1, r.2.2)

/-! ## Thread cache (src/thread_cache.rs), one class's free list -/

structure TcFreeList where
  objs : List Nat
  maxLength : Nat
  lengthOverages : Nat
  lowWaterMark : Nat
  deriving Repr, DecidableEq

/-- `FreeList::pop_batch` (thread_cache.rs lines 91-107): pop up to
`count` objects; the popped objects are re-linked in reverse order.
Returns (actual count, batch, remaining list). -/
def tcPopBatch : Nat → List Nat → List Nat → Nat × List Nat × List Nat
  | 0, batch, objs => (0, batch, objs)
  | _ + 1, batch, [] => (0, batch, [])
  | count + 1, batch, o :: rest =>
      let r := tcPopBatch count (o :: batch) rest
      (r.1 + 1, r.2.1, r.2.2)

/-- `ThreadCache::release_to_central` (thread_cache.rs lines 313-358):
release `min(batch_size, length)` objects to the transfer cache and
adjust `max_length`. Returns the new list state and the released batch. -/
def releaseToCentral (l : TcFreeList) (batchSize : Nat) : TcFreeList × List Nat :=
  let toRelease := min batchSize l.objs.length
  if toRelease = 0 then (l, [])
  else
    let p := tcPopBatch toRelease [] l.objs
    let l1 : TcFreeList := { l with objs := p.2.2 }
    let l2 : TcFreeList :=
      if l1.maxLength < batchSize then { l1 with maxLength := l1.maxLength + 1 }
      else if l1.maxLength > batchSize then
        if l1.lengthOverages + 1 > MAX_OVERAGES then
          { l1 with maxLength := max (l1.maxLength - batchSize) batchSize,
                    lengthOverages := 0 }
        else { l1 with lengthOverages := l1.lengthOverages + 1 }
      else l1
    (l2, p.2.1)

/-- `ThreadCache::deallocate` for one class (thread_cache.rs lines
233-260), up to the final `total_size > max_size` scavenge check, which
is reported as the returned flag rather than expanded (`scavenge`
releases additional objects across all classes and is outside this
claim).  Returns (new list, batch released by `release_to_central`,
scavenge triggered). -/
def tcDeallocate (l : TcFreeList) (ptr : Nat) (batchSize : Nat)
    (totalSize maxSize objSize : Nat) : TcFreeList × List Nat × Bool :=
  let l1 : TcFreeList := { l with objs := ptr :: l.objs }
  let totalSize1 := totalSize + objSize
  let (l2, released) :=
    if l1.objs.length > l1.maxLength then releaseToCentral l1 batchSize
    else (l1, [])
  let totalSize2 := totalSize1 - released.length * objSize
  (l2, released, totalSize2 > maxSize)

/-- The coalescing invariant exactly as the specification states it,
read on the model state: for every Free span `s`, neither the page
immediately before `s`'s start page nor the page immediately after
`s`'s last page maps — through the page map and the live span store —
to another Free span. -/
def NoAdjFreePm (st : PH) : Prop :=
  ∀ sid r, alGet st.store sid = some r → r.state = SpanSt.free →
    (r.startPage ≠ 0 → ∀ j, pmGet st (r.startPage - 1) = some j → j ≠ sid →
      ∀ rj, alGet st.store j = some rj → rj.state ≠ SpanSt.free) ∧
    (∀ j, pmGet st r.endPage = some j → j ≠ sid →
      ∀ rj, alGet st.store j = some rj → rj.state ≠ SpanSt.free)

/-! ## Concrete states used to evaluate the theorems -/

/-- A page heap with nothing mapped and an OS that refuses everything. -/
def emptyPH : PH :=
  { store := [], pmap := [], freeLists := [], largeSpans := [],
    nextId := 0, slabFuel := 0, osSupply := [] }

/-- One in-use single-page span of class 1 at page 2 (address 16384). -/
def onePH : PH :=
  { store := [(7, { startPage := 2, numPages := 1, sizeClass := 1,
                    state := SpanSt.inUse, allocatedCount := 1, totalCount := 1024,
                    freelist := [] })],
    pmap := [(2, 7)], freeLists := [], largeSpans := [],
    nextId := 8, slabFuel := 0, osSupply := [] }

/-- An in-use single-page span at page 2 whose right neighbour (page 3)
is a free span: deallocating it exercises the right-coalescing path. -/
def c7Rec : SpanRec :=
  { startPage := 2, numPages := 1, sizeClass := 3, state := SpanSt.inUse,
    allocatedCount := 0, totalCount := 4, freelist := [] }

/-- Page heap holding `c7Rec` (id 1) and a free single-page span (id 2)
immediately to its right, with both spans registered in the page map. -/
def c7PH : PH :=
  { store := [(1, c7Rec),
              (2, { startPage := 3, numPages := 1, sizeClass := 0, state := SpanSt.free,
                    allocatedCount := 0, totalCount := 0, freelist := [] })],
    pmap := [(2, 1), (3, 2)],
    freeLists := [(1, [2])], largeSpans := [], nextId := 3, slabFuel := 0,
    osSupply := [] }

end RtMalloc

namespace RtMalloc

/-! ## Supporting lemmas -/

theorem scanClasses_sound {l : List SizeClassInfo} :
    ∀ {cls size r : Nat}, scanClasses cls size l = some r →
      cls ≤ r ∧ r - cls < l.length ∧ size ≤ (l.getD (r - cls) ⟨0, 0, 0⟩).size := by
  induction l with
  | nil => intro cls size r h; simp [scanClasses] at h
  | cons c rest ih =>
    intro cls size r h
    simp only [scanClasses] at h
    split at h
    · cases h
      simp_all
    · obtain ⟨h1, h2, h3⟩ := ih h
      refine ⟨by omega, by simp; omega, ?_⟩
      have : r - cls = (r - (cls + 1)) + 1 := by omega
      rw [this]
      simpa using h3

theorem getD_drop (l : List SizeClassInfo) (d : SizeClassInfo) :
    ∀ m k, (l.drop m).getD k d = l.getD (m + k) d := by
  induction l with
  | nil => intro m k; simp
  | cons a t ih =>
    intro m k
    cases m with
    | zero => simp
    | succ m' =>
      simp only [List.drop_succ_cons]
      rw [ih m' k]
      have : m' + 1 + k = (m' + k) + 1 := by omega
      rw [this]
      simp [List.getD]

theorem smallLookupEntry_facts :
    ∀ i < SMALL_LOOKUP_LEN,
      smallLookupEntry i ≠ 0 ∧ smallLookupEntry i < NUM_SIZE_CLASSES ∧
        i * 8 ≤ class_to_size (smallLookupEntry i) := by
  decide

theorem size_to_class_sound {s : Nat} (h : size_to_class s ≠ 0) :
    size_to_class s < NUM_SIZE_CLASSES ∧ s ≤ class_to_size (size_to_class s) := by
  by_cases h0 : s = 0
  · subst h0; exact ⟨by decide, by decide⟩
  · by_cases hmax : s > MAX_SMALL_SIZE
    · exact absurd (by simp [size_to_class, h0, hmax]) h
    · by_cases hle : s ≤ 1024
      · have heq : size_to_class s = smallLookupEntry ((s + 7) / 8) := by
          simp [size_to_class, h0, hmax, hle]
        have hidx : (s + 7) / 8 < SMALL_LOOKUP_LEN := by
          unfold SMALL_LOOKUP_LEN; omega
        obtain ⟨_, hlt, hsz⟩ := smallLookupEntry_facts _ hidx
        rw [heq]
        exact ⟨hlt, by omega⟩
      · cases hsc : scanClasses 25 s (SIZE_CLASSES.drop 25) with
        | none => exact absurd (by simp [size_to_class, h0, hmax, hle, hsc]) h
        | some r =>
          have heq : size_to_class s = r := by
            simp [size_to_class, h0, hmax, hle, hsc]
          obtain ⟨h1, h2, h3⟩ := scanClasses_sound hsc
          rw [getD_drop] at h3
          have hlen : (SIZE_CLASSES.drop 25).length = 21 := by decide
          rw [hlen] at h2
          have hr : 25 + (r - 25) = r := by omega
          rw [hr] at h3
          rw [heq]
          refine ⟨by unfold NUM_SIZE_CLASSES; omega, ?_⟩
          simpa [class_to_size, sizeClassesGet] using h3

theorem class_sizes_mod8 : ∀ c < NUM_SIZE_CLASSES, class_to_size c % 8 = 0 := by
  decide

theorem alignUpMask_eq (addr k : Nat) (hk : k ≤ 64) (hbound : addr + 2 ^ k ≤ 2 ^ 64) :
    alignUpMask addr (2 ^ k) = 2 ^ k * ((addr + 2 ^ k - 1) / 2 ^ k) := by
  unfold alignUpMask
  set y := addr + 2 ^ k - 1 with hy
  have hylt : y < 2 ^ 64 := by
    have := Nat.one_le_two_pow (n := k)
    omega
  have hM : 2 ^ 64 - 2 ^ k = 2 ^ k * (2 ^ (64 - k) - 1) := by
    have hsplit : 2 ^ k * 2 ^ (64 - k) = 2 ^ 64 := by
      rw [← pow_add]
      congr 1
      omega
    have := Nat.mul_pred (2 ^ k) (2 ^ (64 - k))
    simp [Nat.mul_pred] at this ⊢
    omega
  rw [hM]
  apply Nat.eq_of_testBit_eq
  intro i
  rw [Nat.testBit_and, Nat.testBit_mul_pow_two, Nat.testBit_mul_pow_two]
  by_cases hik : k ≤ i
  · simp only [ge_iff_le, hik, decide_True, Bool.true_and]
    rw [Nat.testBit_two_pow_sub_one]
    have hdiv : y / 2 ^ k = y >>> k := (Nat.shiftRight_eq_div_pow y k).symm
    rw [hdiv, Nat.testBit_shiftRight]
    have hki : k + (i - k) = i := by omega
    rw [hki]
    by_cases hi64 : i < 64
    · have : i - k < 64 - k := by omega
      simp [this]
    · have h1 : ¬ (i - k < 64 - k) := by omega
      have h2 : y.testBit i = false := by
        apply Nat.testBit_lt_two_pow
        calc y < 2 ^ 64 := hylt
        _ ≤ 2 ^ i := Nat.pow_le_pow_right (by norm_num) (by omega)
      simp [h1, h2]
  · simp [hik]

theorem pow_dvd_of_le {k j : Nat} (h : k ≤ j) : (2 ^ k : Nat) ∣ 2 ^ j :=
  pow_dvd_pow 2 h

theorem two_pow_le_iff {k j : Nat} : (2 ^ k : Nat) ≤ 2 ^ j ↔ k ≤ j :=
  Nat.pow_le_pow_iff_right (by norm_num)

theorem allocDispatch_small_inv {size align c : Nat}
    (h : allocDispatch size align = AllocPath.small c) :
    c ≠ 0 ∧
    (align ≤ 8 → c = size_to_class size) ∧
    (8 < align →
      c = size_to_class (max size align) ∧ align ≤ PAGE_SIZE ∧
        class_to_size c % align = 0) := by
  by_cases h0 : size = 0
  · simp [allocDispatch, h0] at h
  by_cases h8 : align ≤ 8
  · by_cases hc : size_to_class size = 0
    · simp [allocDispatch, h0, h8, hc] at h
    · simp only [allocDispatch, h0, h8, hc, if_false, if_true, ne_eq,
        not_false_eq_true, if_pos] at h
      cases h
      exact ⟨hc, fun _ => rfl, fun hgt => absurd hgt (by omega)⟩
  · by_cases hc : size_to_class (max size align) = 0
    · simp [allocDispatch, h0, h8, hc] at h
    · by_cases hbig : align > PAGE_SIZE ∨ ¬ class_to_size (size_to_class (max size align)) % align = 0
      · simp [allocDispatch, h0, h8, hc, hbig] at h
      · push_neg at hbig
        simp only [allocDispatch, h0, h8, hc, if_false, ne_eq, not_false_eq_true, if_pos,
          if_neg] at h
        rw [if_neg (by push_neg; exact hbig)] at h
        cases h
        exact ⟨hc, fun hle => absurd hle (by omega),
          fun _ => ⟨rfl, hbig.1, hbig.2⟩⟩

theorem PAGE_SIZE_eq : PAGE_SIZE = 2 ^ 13 := by decide

theorem align_dvd_page {align k : Nat} (hal : align = 2 ^ k) (hle : align ≤ PAGE_SIZE) :
    align ∣ PAGE_SIZE := by
  rw [PAGE_SIZE_eq] at *
  subst hal
  exact pow_dvd_of_le (two_pow_le_iff.mp hle)

/-! ## C1 -/

/-- C1: every pointer `alloc(layout)` hands out is `layout.align`-aligned
for power-of-two alignments.  Small-path objects sit at
`base + i * class_size` with a page-aligned span base; on the small path
taken with `align > 8` the dispatch itself guarantees
`class_size % align == 0 ∧ align ≤ page_size`; the simple large path
returns a page-aligned span start; and the over-aligned large path
returns `(start + align - 1) & !(align - 1)`, which is exactly the
round-up of the span start to the requested alignment. -/
theorem alloc_pointer_alignment (size align k : Nat) (hal : align = 2 ^ k) (hk : k ≤ 64) :
    (∀ c, allocDispatch size align = AllocPath.small c →
        (8 < align → class_to_size c % align = 0 ∧ align ≤ PAGE_SIZE) ∧
        (∀ base i, base % PAGE_SIZE = 0 →
            smallObjAddr base i (class_to_size c) % align = 0)) ∧
    (align ≤ PAGE_SIZE → ∀ startPage, spanStartAddr startPage % align = 0) ∧
    (PAGE_SIZE < align → ∀ addr, addr + align ≤ 2 ^ 64 →
        alignUpMask addr align = align * ((addr + align - 1) / align) ∧
        alignUpMask addr align % align = 0 ∧ addr ≤ alignUpMask addr align) := by
  have halpos : 0 < align := by subst hal; exact Nat.pos_pow_of_pos k (by norm_num)
  refine ⟨?_, ?_, ?_⟩
  · intro c hc
    obtain ⟨hc0, hle8, hgt8⟩ := allocDispatch_small_inv hc
    have hcsal : class_to_size c % align = 0 ∧ align ≤ PAGE_SIZE := by
      by_cases h8 : align ≤ 8
      · have hcls := hle8 h8
        have hsound := size_to_class_sound (s := size) (by rw [← hcls]; exact hc0)
        have hm8 : class_to_size c % 8 = 0 := by
          rw [hcls]; exact class_sizes_mod8 _ hsound.1
        have hd8 : align ∣ 8 := by
          subst hal
          have : (2:Nat) ^ k ≤ 2 ^ 3 := by norm_num at h8 ⊢; omega
          exact pow_dvd_of_le (two_pow_le_iff.mp this)
        constructor
        · rw [← Nat.dvd_iff_mod_eq_zero] at hm8 ⊢
          exact dvd_trans hd8 hm8
        · have : (8:Nat) ≤ PAGE_SIZE := by decide
          omega
      · exact ⟨(hgt8 (by omega)).2.2, (hgt8 (by omega)).2.1⟩
    refine ⟨fun _ => hcsal, ?_⟩
    intro base i hbase
    have hdPS : align ∣ PAGE_SIZE := align_dvd_page hal hcsal.2
    have hdbase : align ∣ base :=
      dvd_trans hdPS (Nat.dvd_of_mod_eq_zero hbase)
    have hdcs : align ∣ class_to_size c :=
      Nat.dvd_of_mod_eq_zero hcsal.1
    rw [← Nat.dvd_iff_mod_eq_zero]
    exact Nat.dvd_add hdbase (Dvd.dvd.mul_left hdcs i)
  · intro hle startPage
    have hdPS : align ∣ PAGE_SIZE := align_dvd_page hal hle
    rw [← Nat.dvd_iff_mod_eq_zero]
    unfold spanStartAddr
    rw [Nat.shiftLeft_eq]
    have : PAGE_SHIFT = 13 := rfl
    rw [this, ← PAGE_SIZE_eq]
    exact Dvd.dvd.mul_left hdPS startPage
  · intro _ addr hbound
    subst hal
    have heq := alignUpMask_eq addr k hk hbound
    refine ⟨heq, ?_, ?_⟩
    · rw [heq]; exact Nat.mul_mod_right _ _
    · rw [heq]
      have hdm := Nat.div_add_mod (addr + 2 ^ k - 1) (2 ^ k)
      have hmlt : (addr + 2 ^ k - 1) % 2 ^ k < 2 ^ k :=
        Nat.mod_lt _ (Nat.pos_pow_of_pos k (by norm_num))
      have h1 : (1:Nat) ≤ 2 ^ k := Nat.one_le_two_pow
      omega

/-- Witness for C1 at `layout = (size 100, align 16384)`, an over-aligned
request, plus the small path at `(100, 8)`. -/
theorem alloc_pointer_alignment_witness :
    ((16384:Nat) = 2 ^ 14 ∧ (14:Nat) ≤ 64) ∧
      (alignUpMask 20000 16384 = 16384 * ((20000 + 16384 - 1) / 16384) ∧
        alignUpMask 20000 16384 % 16384 = 0 ∧ 20000 ≤ alignUpMask 20000 16384) ∧
      smallObjAddr 16384 3 (class_to_size 11) % 8 = 0 :=
  ⟨⟨by decide, by decide⟩,
   (alloc_pointer_alignment 100 16384 14 (by decide) (by decide)).2.2 (by decide)
     20000 (by decide),
   ((alloc_pointer_alignment 100 8 3 (by decide) (by decide)).1 11 (by decide)).2
     16384 3 (by decide)⟩

/-! ## C9 -/

/-- C9: for every power-of-two alignment `A`, `alloc` with size 0
returns the sentinel `A` itself — non-null and trivially `A`-aligned —
and `dealloc` of any pointer under a zero-sized layout returns
immediately, changing no allocator state. -/
theorem zero_size_sentinel (align k : Nat) (hal : align = 2 ^ k) :
    allocDispatch 0 align = AllocPath.sentinel align ∧
    align ≠ 0 ∧ align % align = 0 ∧
    (∀ st ptr, deallocStep st ptr 0 = (st, DeallocTail.ret)) := by
  have halpos : 0 < align := by subst hal; exact Nat.pos_pow_of_pos k (by norm_num)
  refine ⟨by simp [allocDispatch], by omega, Nat.mod_self align, ?_⟩
  intro st ptr
  simp [deallocStep]

/-- Witness for C9 at `align = 64` and a dealloc on the one-span heap. -/
theorem zero_size_sentinel_witness :
    ((64:Nat) = 2 ^ 6) ∧
      (allocDispatch 0 64 = AllocPath.sentinel 64 ∧
        (64:Nat) ≠ 0 ∧ 64 % 64 = 0 ∧
        (∀ st ptr, deallocStep st ptr 0 = (st, DeallocTail.ret))) :=
  ⟨by decide, zero_size_sentinel 64 6 (by decide)⟩

/-! ## C4 -/

/-- C4: `dealloc(ptr, layout)` with `layout.size ≠ 0` on a pointer whose
page id is absent from the page map is a silent no-op: the state is
returned unchanged and neither the small path nor the page-heap path
runs. -/
theorem dealloc_foreign_pointer_noop (st : PH) (ptr lsize : Nat) (hsz : lsize ≠ 0)
    (hmiss : pmGet st (ptr >>> PAGE_SHIFT) = none) :
    deallocStep st ptr lsize = (st, DeallocTail.ret) := by
  simp [deallocStep, hsz, hmiss]

/-- Witness for C4: a foreign pointer (page 3 is unmapped in `onePH`). -/
theorem dealloc_foreign_pointer_noop_witness :
    ((8:Nat) ≠ 0 ∧ pmGet onePH (24576 >>> PAGE_SHIFT) = none) ∧
      deallocStep onePH 24576 8 = (onePH, DeallocTail.ret) :=
  ⟨⟨by decide, by decide⟩,
   dealloc_foreign_pointer_noop onePH 24576 8 (by decide) (by decide)⟩

/-! ## C2 -/

/-- C2 counterexample: the claim quantifies over every
`new_size ≤ usable`, but `new_size = 0` is handled before the usable
check — `realloc` deallocates and returns the alignment sentinel, not
`p`.  Here `p = 16384` (page 2, class 1, usable 8 ≥ 0 = new_size), yet
the result is the sentinel 8. -/
theorem realloc_zero_newsize_counterexample :
    (0:Nat) ≤ class_to_size 1 ∧
      reallocStep onePH 16384 8 8 0 = ReallocResult.ptr 8 ∧
      ReallocResult.ptr 8 ≠ ReallocResult.ptr 16384 := by
  refine ⟨by decide, by decide, by decide⟩

/-- C2 as amended: for every **non-zero** `new_size` at most the span's
usable size (`class_to_size` of the span's class when non-zero, else
`num_pages * PAGE_SIZE`), `realloc(p, L, new_size)` returns `p`
unchanged.  The realloc identity survives in full: pointers from the
small path satisfy `L.size ≤ class_to_size c`, pointers from the simple
large path satisfy `L.size ≤ largeNumPages L.size * PAGE_SIZE`, and a
zero-sized source is re-allocated to the same sentinel. -/
theorem realloc_inplace_amended :
    (∀ (st : PH) (p lsize lalign newSize sid : Nat) (r : SpanRec),
      p ≠ 0 → lsize ≠ 0 → 1 ≤ newSize →
      pmGet st (p >>> PAGE_SHIFT) = some sid →
      alGet st.store sid = some r →
      newSize ≤ (if r.sizeClass ≠ 0 then class_to_size r.sizeClass
                 else r.numPages * PAGE_SIZE) →
      reallocStep st p lsize lalign newSize = ReallocResult.ptr p) ∧
    (∀ size align c, allocDispatch size align = AllocPath.small c →
        size ≤ class_to_size c) ∧
    (∀ size, size ≤ largeNumPages size * PAGE_SIZE) ∧
    (∀ (st : PH) (lalign : Nat), reallocStep st lalign 0 lalign 0 = ReallocResult.ptr lalign) := by
  refine ⟨?_, ?_, ?_, ?_⟩
  · intro st p lsize lalign newSize sid r hp hl hn hpm hst husable
    have hn0 : newSize ≠ 0 := by omega
    simp only [reallocStep, hp, hl, or_self, if_false, hn0, hpm, hst]
    split
    · rename_i hsc
      rw [if_pos (by simpa [hsc] using husable)]
    · rename_i hsc
      rw [if_pos (by simpa [hsc] using husable)]
  · intro size align c hc
    obtain ⟨hc0, hle8, hgt8⟩ := allocDispatch_small_inv hc
    by_cases h8 : align ≤ 8
    · have hcls := hle8 h8
      have hsound := size_to_class_sound (s := size) (by rw [← hcls]; exact hc0)
      rw [hcls]
      exact hsound.2
    · have hcls := (hgt8 (by omega)).1
      have hsound := size_to_class_sound (s := max size align)
        (by rw [← hcls]; exact hc0)
      have := hsound.2
      rw [← hcls] at this
      omega
  · intro size
    unfold largeNumPages
    have hps : PAGE_SIZE = 8192 := by decide
    rw [hps]
    omega
  · intro st lalign
    simp [reallocStep]

/-- Witness for C2 as amended: in-place realloc of the class-1 object at
16384 down to 5 bytes, and both usable-size bounds at the inputs of S4. -/
theorem realloc_inplace_amended_witness :
    reallocStep onePH 16384 8 8 5 = ReallocResult.ptr 16384 ∧
      (64:Nat) ≤ class_to_size 8 ∧ (300000:Nat) ≤ largeNumPages 300000 * PAGE_SIZE :=
  ⟨realloc_inplace_amended.1 onePH 16384 8 8 5 7
      { startPage := 2, numPages := 1, sizeClass := 1, state := SpanSt.inUse,
        allocatedCount := 1, totalCount := 1024, freelist := [] }
      (by decide) (by decide) (by decide) (by decide) (by decide) (by decide),
   realloc_inplace_amended.2.1 64 8 8 (by decide),
   realloc_inplace_amended.2.2.1 300000⟩

end RtMalloc

namespace RtMalloc

/-! ## C10 and C3 -/

theorem alGet_mem {α : Type} : ∀ (m : List (Nat × α)) (k : Nat) (v : α),
    alGet m k = some v → (k, v) ∈ m := by
  intro m k v h
  induction m with
  | nil => simp [alGet] at h
  | cons kv rest ih =>
    cases kv with
    | mk k' v' =>
      simp only [alGet] at h
      split at h
      · rename_i heq
        cases h
        subst heq
        exact List.mem_cons_self _ _
      · exact List.mem_cons_of_mem _ (ih h)

theorem radixWF_empty : RadixWF radixEmpty := by
  refine ⟨by simp [radixEmpty], ?_, ?_⟩
  · intro mid hmid n hn
    have := List.eq_of_mem_replicate hmid
    subst this
    simp at hn
  · intro mid hmid n hn
    have := List.eq_of_mem_replicate hmid
    subst this
    simp at hn

/-- C10: `PageMap::get` is total over all page ids: under the structural
sizing of the radix tree every array access is in bounds (the lookup
never faults, `isSome`), a page id at or above `2^35` falls outside the
statically sized root and yields null, and a page never set — here, the
empty map — yields null. -/
theorem pagemap_get_total (m : RadixMap) (page : Nat) (hwf : RadixWF m) :
    (radixGet m page).isSome ∧
    (2 ^ 35 ≤ page → radixGet m page = some none) ∧
    radixGet radixEmpty page = some none := by
  obtain ⟨hroot, hmid, hleaf⟩ := hwf
  refine ⟨?_, ?_, ?_⟩
  · unfold radixGet
    by_cases hoob : page >>> ROOT_SHIFT ≥ ROOT_LEN
    · simp [hoob]
    · simp only [hoob, if_false]
      push_neg at hoob
      have hlt : page >>> ROOT_SHIFT < m.root.length := by rw [hroot]; exact hoob
      cases hm : m.root.get? (page >>> ROOT_SHIFT) with
      | none => rw [List.get?_eq_none] at hm; omega
      | some midSlot =>
        cases midSlot with
        | none => simp [hm]
        | some mid =>
          have hmemMid : (some mid) ∈ m.root := List.get?_mem hm
          have hmlen : mid.children.length = MID_LEN := hmid _ hmemMid mid rfl
          have hmidx : (page >>> MID_SHIFT) &&& MID_MASK < MID_LEN := by
            have h1 : (page >>> MID_SHIFT) &&& MID_MASK ≤ MID_MASK := Nat.and_le_right
            have h2 : MID_MASK < MID_LEN := by decide
            omega
          cases hl : mid.children.get? ((page >>> MID_SHIFT) &&& MID_MASK) with
          | none => rw [List.get?_eq_none] at hl; omega
          | some leafSlot =>
            cases leafSlot with
            | none =>
              rw [List.get?_eq_getElem?] at hm hl
              simp [hm, hl]
            | some leaf =>
              have hmemLeaf : (some leaf) ∈ mid.children := List.get?_mem hl
              have hllen : leaf.spans.length = LEAF_LEN :=
                hleaf _ hmemMid mid rfl _ hmemLeaf leaf rfl
              have hlidx : page &&& LEAF_MASK < LEAF_LEN := by
                have h1 : page &&& LEAF_MASK ≤ LEAF_MASK := Nat.and_le_right
                have h2 : LEAF_MASK < LEAF_LEN := by decide
                omega
              cases hvv : leaf.spans.get? (page &&& LEAF_MASK) with
              | none => rw [List.get?_eq_none] at hvv; omega
              | some v =>
                rw [List.get?_eq_getElem?] at hm hl hvv
                simp [hm, hl, hvv]
  · intro hbig
    have hoob : page >>> ROOT_SHIFT ≥ ROOT_LEN := by
      have hRS : ROOT_SHIFT = 23 := by decide
      have hRL : ROOT_LEN = 4096 := by decide
      rw [hRS, hRL, Nat.shiftRight_eq_div_pow]
      have hd : 2 ^ 35 / 2 ^ 23 ≤ page / 2 ^ 23 := Nat.div_le_div_right hbig
      norm_num at hd ⊢
      omega
    unfold radixGet
    simp [hoob]
  · unfold radixGet
    by_cases hoob : page >>> ROOT_SHIFT ≥ ROOT_LEN
    · simp [hoob]
    · push_neg at hoob
      have hrep : (radixEmpty.root).get? (page >>> ROOT_SHIFT) = some none := by
        simp only [radixEmpty]
        rw [List.get?_eq_get (by simpa using hoob)]
        simp
      rw [List.get?_eq_getElem?] at hrep
      simp [hoob, hrep]

theorem growHeapExact_oom (st : PH) (n : Nat) (h : ∀ o ∈ st.osSupply, o = none) :
    (growHeapExact st n).1 = none := by
  cases hsup : st.osSupply with
  | nil => simp [growHeapExact, osPageAlloc, hsup]
  | cons o rest =>
    have : o = none := h o (by rw [hsup]; exact List.mem_cons_self o rest)
    subst this
    simp [growHeapExact, osPageAlloc, hsup]

theorem growHeap_oom (st : PH) (n : Nat) (h : ∀ o ∈ st.osSupply, o = none) :
    (growHeap st n).1 = none := by
  cases hsup : st.osSupply with
  | nil =>
    simp only [growHeap, osPageAlloc, hsup]
    split
    · apply growHeapExact_oom
      simp [hsup]
    · rfl
  | cons o rest =>
    have ho : o = none := h o (by rw [hsup]; exact List.mem_cons_self o rest)
    subst ho
    simp only [growHeap, osPageAlloc, hsup]
    split
    · apply growHeapExact_oom
      intro o2 ho2
      exact h o2 (by rw [hsup]; exact List.mem_cons_of_mem _ ho2)
    · rfl

theorem searchSmallLists_empty (st : PH) (hfl : ∀ kv ∈ st.freeLists, kv.2 = []) :
    ∀ idxs, searchSmallLists st idxs = none := by
  intro idxs
  induction idxs with
  | nil => rfl
  | cons n rest ih =>
    simp only [searchSmallLists]
    cases hg : alGet st.freeLists n with
    | none => exact ih
    | some v =>
      have : v = [] := hfl _ (alGet_mem _ _ _ hg)
      subst this
      exact ih

theorem allocateSpan_oom (st : PH) (n : Nat)
    (hos : ∀ o ∈ st.osSupply, o = none)
    (hfl : ∀ kv ∈ st.freeLists, kv.2 = [])
    (hls : st.largeSpans = []) :
    (allocateSpan st n).1 = none := by
  unfold allocateSpan
  have hsearch : (if n ≤ MAX_PAGES then
      searchSmallLists st (List.range' n (MAX_PAGES + 1 - n)) else none) = none := by
    split
    · exact searchSmallLists_empty st hfl _
    · rfl
  rw [hsearch]
  have hbl : findBestLargeSpan st n = none := by
    unfold findBestLargeSpan
    rw [hls]
    rfl
  rw [hbl]
  exact growHeap_oom st n hos

theorem radixSet_panics_on_node_oom (m : RadixMap) (supply : List Bool) (page : Nat)
    (v : Option Nat) (hin : page >>> ROOT_SHIFT < ROOT_LEN)
    (hslot : ((m.root).get? (page >>> ROOT_SHIFT)).join = none)
    (hfail : ∀ b ∈ supply, b = false) :
    radixSet m supply page v = Except.error PmPanic.midAllocFailed := by
  unfold radixSet
  rw [if_neg (by omega)]
  rw [hslot]
  cases supply with
  | nil => rfl
  | cons b rest =>
    have : b = false := hfail b (List.mem_cons_self b rest)
    subst this
    rfl

/-- Witness for C10 on the empty page map at page id `2^40`. -/
theorem pagemap_get_total_witness :
    (radixGet radixEmpty (2 ^ 40)).isSome ∧
      (2 ^ 35 ≤ 2 ^ 40 → radixGet radixEmpty (2 ^ 40) = some none) ∧
      radixGet radixEmpty (2 ^ 40) = some none :=
  pagemap_get_total radixEmpty (2 ^ 40) radixWF_empty

/-- C3 counterexample: the claim says OS-memory exhaustion is never
surfaced as a panic on an allocation path, but `PageMap::set` — run on
every allocation path that registers a fresh span — `assert!`s when
`page_alloc` returns null for a missing radix node.  Concretely: on the
empty map, with the OS refusing the mid-node allocation, `set(0, span)`
hits `assert!(!mid.is_null(), "failed to allocate mid node for page
map")`. -/
theorem pagemap_set_oom_panics :
    radixSet radixEmpty [false] 0 (some 1) = Except.error PmPanic.midAllocFailed := by
  rfl

/-- C3 as amended: the page-heap growth path does surface OS refusal as
a null return — `grow_heap` (with its exact-size retry) and
`allocate_span` over empty free lists return null, never a panic — but
`PageMap::set` panics (asserts) when the OS refuses to supply a missing
mid node, so allocation paths that must register fresh pages can abort
under OOM instead of returning null. -/
theorem oom_null_return_amended :
    (∀ (st : PH) (n : Nat), (∀ o ∈ st.osSupply, o = none) →
        (growHeap st n).1 = none) ∧
    (∀ (st : PH) (n : Nat), (∀ o ∈ st.osSupply, o = none) →
        (∀ kv ∈ st.freeLists, kv.2 = []) → st.largeSpans = [] →
        (allocateSpan st n).1 = none) ∧
    (∀ (m : RadixMap) (supply : List Bool) (page : Nat) (v : Option Nat),
        page >>> ROOT_SHIFT < ROOT_LEN →
        ((m.root).get? (page >>> ROOT_SHIFT)).join = none →
        (∀ b ∈ supply, b = false) →
        radixSet m supply page v = Except.error PmPanic.midAllocFailed) :=
  ⟨growHeap_oom, allocateSpan_oom, radixSet_panics_on_node_oom⟩

/-- Witness for C3 as amended: the empty heap with a refusing OS. -/
theorem oom_null_return_amended_witness :
    (growHeap emptyPH 5).1 = none ∧ (allocateSpan emptyPH 5).1 = none ∧
      radixSet radixEmpty [false] 3 (some 1) = Except.error PmPanic.midAllocFailed :=
  ⟨oom_null_return_amended.1 emptyPH 5 (by simp [emptyPH]),
   oom_null_return_amended.2.1 emptyPH 5 (by simp [emptyPH]) (by simp [emptyPH]) (by rfl),
   oom_null_return_amended.2.2 radixEmpty [false] 3 (some 1) (by decide) (by rfl)
     (by decide)⟩

end RtMalloc

namespace RtMalloc

/-! ## C5, C6, C8 -/

theorem drainSpan_le (need : Nat) :
    ∀ (objs : List Nat) (count : Nat) (head : List Nat), count ≤ need →
      (drainSpan need count head objs).1 ≤ need := by
  intro objs
  induction objs with
  | nil => intro count head h; simpa [drainSpan]
  | cons o rest ih =>
    intro count head h
    simp only [drainSpan]
    split
    · exact ih (count + 1) (o :: head) (by omega)
    · simpa [drainSpan]

theorem cflCollect_le (need : Nat) :
    ∀ (ids : List Nat) (spans : List (Nat × CflSpan)) (numFree count : Nat)
      (head : List Nat), count ≤ need →
      (cflCollect spans numFree need count head ids).2.2.2.1 ≤ need := by
  intro ids
  induction ids with
  | nil => intro spans numFree count head h; simpa [cflCollect]
  | cons sid rest ih =>
    intro spans numFree count head h
    simp only [cflCollect]
    split
    · rename_i hlt
      cases hg : alGet spans sid with
      | none => simpa [hg]
      | some sp =>
        simp only [hg]
        have hd := drainSpan_le need sp.freelist count head (by omega)
        split
        · exact ih _ _ _ _ hd
        · simpa using hd
    · simpa using h

theorem cflRemoveRangeDroppingLock_le (need : Nat) :
    ∀ (supply : List (Option (List Nat))) (st : CentralState) (count : Nat)
      (head : List Nat) (events : List PhEvent), count ≤ need →
      (cflRemoveRangeDroppingLock need supply st count head events).1.1 ≤ need := by
  intro supply
  induction supply with
  | nil =>
    intro st count head events h
    simp only [cflRemoveRangeDroppingLock]
    have := cflCollect_le need st.nonempty st.spans st.numFree count head h
    split <;> simpa [cflCollectStep]
  | cons o rest ih =>
    intro st count head events h
    cases o with
    | none =>
      simp only [cflRemoveRangeDroppingLock]
      have := cflCollect_le need st.nonempty st.spans st.numFree count head h
      split <;> simpa [cflCollectStep]
    | some objs =>
      simp only [cflRemoveRangeDroppingLock]
      have hc := cflCollect_le need st.nonempty st.spans st.numFree count head h
      split
      · simpa [cflCollectStep]
      · exact ih _ _ _ _ (by simpa [cflCollectStep] using hc)

theorem tcPopBatch_length :
    ∀ (count : Nat) (batch objs : List Nat),
      (tcPopBatch count batch objs).2.1.length = batch.length + min count objs.length ∧
      (tcPopBatch count batch objs).1 = min count objs.length := by
  intro count
  induction count with
  | zero => intro batch objs; simp [tcPopBatch]
  | succ c ih =>
    intro batch objs
    cases objs with
    | nil => simp [tcPopBatch]
    | cons o rest =>
      simp only [tcPopBatch]
      have := ih (o :: batch) rest
      constructor
      · simp only [this.1, List.length_cons]
        omega
      · simp only [this.2, List.length_cons]
        omega

theorem releaseToCentral_length (l : TcFreeList) (batchSize : Nat)
    (hb : 0 < batchSize) (hne : l.objs ≠ []) :
    (releaseToCentral l batchSize).2.length = min batchSize l.objs.length := by
  have hlen : 0 < l.objs.length := List.length_pos.mpr hne
  have htr : 0 < min batchSize l.objs.length := by omega
  simp only [releaseToCentral]
  rw [if_neg (by omega)]
  have := (tcPopBatch_length (min batchSize l.objs.length) [] l.objs).1
  simp only [List.length_nil, Nat.zero_add] at this
  rw [this]
  omega

theorem cflRemoveRangeDroppingLock_events (need : Nat) :
    ∀ (supply : List (Option (List Nat))) (st : CentralState) (count : Nat)
      (head : List Nat) (events : List PhEvent),
      (∀ e ∈ events, e = PhEvent.allocSpanCall false) →
      ∀ e ∈ (cflRemoveRangeDroppingLock need supply st count head events).2.2,
        e = PhEvent.allocSpanCall false := by
  intro supply
  induction supply with
  | nil =>
    intro st count head events hev e he
    simp only [cflRemoveRangeDroppingLock] at he
    split at he
    · exact hev e he
    · rw [List.mem_append] at he
      rcases he with h | h
      · exact hev e h
      · simpa using h
  | cons o rest ih =>
    intro st count head events hev e he
    cases o with
    | none =>
      simp only [cflRemoveRangeDroppingLock] at he
      split at he
      · exact hev e he
      · rw [List.mem_append] at he
        rcases he with h | h
        · exact hev e h
        · simpa using h
    | some objs =>
      simp only [cflRemoveRangeDroppingLock] at he
      split at he
      · exact hev e he
      · refine ih _ _ _ _ ?_ e he
        intro e2 he2
        rw [List.mem_append] at he2
        rcases he2 with h | h
        · exact hev e2 h
        · simpa using h

theorem cflInsertPhase1_inv (spanOf : Nat → Option Nat) :
    ∀ (objs : List Nat) (count : Nat) (st : CentralState) (freed : List Nat)
      (events : List PhEvent), freed.length ≤ MAX_FREED →
      (cflInsertPhase1 spanOf objs count st freed events).2.1.length ≤ MAX_FREED ∧
      freed.length ≤ (cflInsertPhase1 spanOf objs count st freed events).2.1.length ∧
      events.length ≤ (cflInsertPhase1 spanOf objs count st freed events).2.2.length ∧
      (events.length < (cflInsertPhase1 spanOf objs count st freed events).2.2.length →
        (cflInsertPhase1 spanOf objs count st freed events).2.1.length = MAX_FREED) ∧
      (∀ e ∈ (cflInsertPhase1 spanOf objs count st freed events).2.2,
        e ∈ events ∨ e = PhEvent.deallocSpanCall true) := by
  intro objs
  induction objs with
  | nil =>
    intro count st freed events hf
    simp only [cflInsertPhase1]
    exact ⟨hf, Nat.le_refl _, Nat.le_refl _, by omega, fun e he => Or.inl he⟩
  | cons obj rest ih =>
    intro count st freed events hf
    cases count with
    | zero =>
      simp only [cflInsertPhase1]
      exact ⟨hf, Nat.le_refl _, Nat.le_refl _, by omega, fun e he => Or.inl he⟩
    | succ remaining =>
      simp only [cflInsertPhase1]
      cases hstep : cflInsertStep spanOf st obj with
      | mk st1 out =>
        cases out with
        | none => exact ih remaining st1 freed events hf
        | some sid =>
          simp only
          split
          · rename_i hlt
            obtain ⟨a1, a2, a3, a4, a5⟩ := ih remaining st1 (freed ++ [sid]) events
              (by simp only [List.length_append, List.length_cons, List.length_nil]; omega)
            refine ⟨a1, ?_, a3, a4, a5⟩
            simp only [List.length_append, List.length_cons, List.length_nil] at a2
            omega
          · rename_i hnotlt
            have hfeq : freed.length = MAX_FREED := by
              simp only [Nat.not_lt] at hnotlt
              omega
            obtain ⟨a1, a2, a3, a4, a5⟩ := ih remaining st1 freed
              (events ++ [PhEvent.deallocSpanCall true]) (by omega)
            simp only [List.length_append, List.length_cons, List.length_nil] at a3
            refine ⟨a1, a2, by omega, fun _ => by omega, ?_⟩
            intro e he
            rcases a5 e he with h | h
            · rcases List.mem_append.mp h with h2 | h2
              · exact Or.inl h2
              · simp only [List.mem_singleton] at h2
                exact Or.inr h2
            · exact Or.inr h

/-- C5 counterexample: `remove_range(class 1, count 1)` with a ready
batch in the transfer cache returns the whole batch and reports
`batch_size = 32` objects — more than the requested count of 1, even
though no ready batch was requested (`count < batch_size`) and the
central free list supplied nothing. -/
theorem transfer_remove_range_over_count :
    (xferRemoveRange ⟨[[7]]⟩ 1 1 ⟨[], [], 0, 0⟩ []).1.1 = (class_info 1).batch_size ∧
      (class_info 1).batch_size = 32 ∧
      ¬ ((xferRemoveRange ⟨[[7]]⟩ 1 1 ⟨[], [], 0, 0⟩ []).1.1 ≤ 1) := by
  decide

/-- C5 as amended: `remove_range(c, count)` returns at most
`max count batch_size(c)` objects — on a transfer-cache hit it returns
exactly one full batch regardless of `count`; when the cache is empty
the request is served by the central free list, which never returns
more than `count`. -/
theorem transfer_remove_range_bound_amended (tc : XferState) (cls count : Nat)
    (central : CentralState) (supply : List (Option (List Nat))) :
    (xferRemoveRange tc cls count central supply).1.1 ≤
        max count (class_info cls).batch_size ∧
    (tc.slots = [] →
      (xferRemoveRange tc cls count central supply).1.1 ≤ count) := by
  cases hs : tc.slots with
  | cons b rest =>
    constructor
    · simp [xferRemoveRange, hs]
    · intro h; simp [hs] at h
  | nil =>
    have hle := cflRemoveRangeDroppingLock_le count supply central 0 [] [] (by omega)
    constructor
    · simp only [xferRemoveRange, hs]
      omega
    · intro _
      simpa [xferRemoveRange, hs] using hle

/-- Witness for C5 as amended: empty transfer cache, empty central
list, page heap able to supply one span of three class-1 objects. -/
theorem transfer_remove_range_bound_amended_witness :
    (xferRemoveRange ⟨[]⟩ 1 2 ⟨[], [], 0, 0⟩ [some [8, 16, 24]]).1.1 ≤ 2 :=
  (transfer_remove_range_bound_amended ⟨[]⟩ 1 2 ⟨[], [], 0, 0⟩ [some [8, 16, 24]]).2
    (by decide)

/-- C6 counterexample: a class-1 free list with one cached object and
`max_length = 1`; the deallocation pushes the freed object, the length
(2) exceeds `max_length`, and the thread cache releases
`min(batch_size, length) = 2` objects — not the claimed exact
`batch_size = 32`.  The `total_size` scavenge does not fire. -/
theorem release_fewer_than_batch :
    ((tcDeallocate ⟨[10], 1, 0, 0⟩ 20 32 16 1000000 8).2.1).length = 2 ∧
      (class_info 1).batch_size = 32 ∧ (2:Nat) ≠ 32 ∧
      (tcDeallocate ⟨[10], 1, 0, 0⟩ 20 32 16 1000000 8).2.2 = false := by
  decide

/-- C6 as amended: when a deallocation pushes the freed object and the
list length then exceeds `max_length`, the thread cache returns exactly
`min(batch_size, length)` objects of that class to the transfer cache
(`batch_size` exactly whenever the list holds at least a batch); when
the length does not exceed `max_length`, nothing is released. The
separate `total_size > max_size` scavenge is outside this statement and
reported by the returned flag. -/
theorem release_to_central_amended (l : TcFreeList)
    (ptr batchSize totalSize maxSize objSize : Nat) (hb : 0 < batchSize) :
    (l.objs.length + 1 > l.maxLength →
      ((tcDeallocate l ptr batchSize totalSize maxSize objSize).2.1).length =
        min batchSize (l.objs.length + 1)) ∧
    (l.objs.length + 1 ≤ l.maxLength →
      (tcDeallocate l ptr batchSize totalSize maxSize objSize).2.1 = []) := by
  constructor
  · intro htrig
    simp only [tcDeallocate]
    rw [if_pos (by simpa using htrig)]
    have := releaseToCentral_length { l with objs := ptr :: l.objs } batchSize hb (by simp)
    simpa using this
  · intro hle
    simp only [tcDeallocate]
    rw [if_neg (by simpa using Nat.not_lt.mpr (by simpa using hle))]

/-- Witness for C6 as amended: a list already holding a full batch. -/
theorem release_to_central_amended_witness :
    ((tcDeallocate ⟨[1, 2, 3], 2, 0, 0⟩ 9 2 32 1000000 8).2.1).length =
        min 2 (3 + 1) :=
  (release_to_central_amended ⟨[1, 2, 3], 2, 0, 0⟩ 9 2 32 1000000 8 (by decide)).1
    (by decide)

/-- C8 counterexample: the plain `CentralFreeList::remove_range` runs
entirely inside `central.get(class).lock()`; on an empty class it calls
`populate` → `page_heap.lock().allocate_span(..)` while still holding
the per-class central lock.  The trace of that execution contains a
page-heap call tagged lock-held. -/
theorem central_lock_held_page_heap_call :
    (cflRemoveRange 1 [none] ⟨[], [], 0, 0⟩ 0 [] []).2.2 =
        [PhEvent.allocSpanCall true] ∧
      PhEvent.allocSpanCall true ∈ (cflRemoveRange 1 [none] ⟨[], [], 0, 0⟩ 0 [] []).2.2 := by
  decide

/-- C8 as amended: only the lock-dropping variants release the central
lock around page-heap calls — `remove_range_dropping_lock` always calls
`allocate_span` with the lock released, and
`insert_range_dropping_lock` returns freed spans with the lock released
provided at most `MAX_FREED` (8) spans become free in the call (beyond
that it falls back to freeing under the lock); the plain
`remove_range`/`insert_range` make their page-heap calls with the
per-class lock held. -/
theorem lock_dropping_page_heap_calls_amended :
    (∀ (need : Nat) (supply : List (Option (List Nat))) (st : CentralState)
        (count : Nat) (head : List Nat),
      ∀ e ∈ (cflRemoveRangeDroppingLock need supply st count head []).2.2,
        e = PhEvent.allocSpanCall false) ∧
    (∀ (spanOf : Nat → Option Nat) (st : CentralState) (objs : List Nat) (count : Nat),
      (cflInsertRangeDroppingLock spanOf st objs count).2.1 ≤ MAX_FREED →
      ∀ e ∈ (cflInsertRangeDroppingLock spanOf st objs count).2.2,
        e = PhEvent.deallocSpanCall false) := by
  constructor
  · intro need supply st count head e he
    exact cflRemoveRangeDroppingLock_events need supply st count head []
      (by intro e2 he2; simp at he2) e he
  · intro spanOf st objs count hfew e he
    obtain ⟨a1, a2, a3, a4, a5⟩ :=
      cflInsertPhase1_inv spanOf objs count st [] [] (by simp [MAX_FREED])
    simp only [cflInsertRangeDroppingLock] at hfew he
    rcases List.mem_append.mp he with h | h
    · have hovf : 0 < (cflInsertPhase1 spanOf objs count st [] []).2.2.length :=
        List.length_pos.mpr (by
          intro hnil
          rw [hnil] at h
          simp at h)
      have h8 : (cflInsertPhase1 spanOf objs count st [] []).2.1.length = MAX_FREED :=
        a4 (by simpa using hovf)
      omega
    · simp only [List.mem_map] at h
      obtain ⟨x, _, hh⟩ := h
      exact hh.symm

/-- Witness for C8 as amended: a remove execution that calls the page
heap (OOM response) and an insert that frees one span of a class with
two nonempty spans. -/
theorem lock_dropping_page_heap_calls_amended_witness :
    PhEvent.allocSpanCall false = PhEvent.allocSpanCall false ∧
      PhEvent.deallocSpanCall false = PhEvent.deallocSpanCall false :=
  ⟨lock_dropping_page_heap_calls_amended.1 1 [none] ⟨[], [], 0, 0⟩ 0 []
      (PhEvent.allocSpanCall false) (by decide),
   lock_dropping_page_heap_calls_amended.2 (fun _ => some 5)
      ⟨[(5, ⟨[], 1, 4⟩)], [1, 2], 0, 9⟩ [100] 1 (by decide)
      (PhEvent.deallocSpanCall false) (by decide)⟩

end RtMalloc
namespace RtMalloc

theorem alGet_alSet_self {α : Type} (m : List (Nat × α)) (k : Nat) (v : α) :
    alGet (alSet m k v) k = some v := by
  induction m with
  | nil => simp [alSet, alGet]
  | cons kv rest ih =>
    cases kv with
    | mk k' v' =>
      simp only [alSet]
      split
      · simp [alGet]
      · rename_i hne
        simp only [alGet, hne, if_neg]
        exact ih

theorem alGet_alSet_ne {α : Type} (m : List (Nat × α)) (k k' : Nat) (v : α)
    (hne : k' ≠ k) : alGet (alSet m k v) k' = alGet m k' := by
  have hne' : ¬ (k = k') := fun h => hne (Eq.symm h)
  induction m with
  | nil => simp [alSet, alGet, hne']
  | cons kv rest ih =>
    cases kv with
    | mk k0 v0 =>
      simp only [alSet]
      split
      · rename_i heq
        subst heq
        simp [alGet, hne']
      · simp only [alGet]
        split
        · rfl
        · exact ih

theorem alGet_alRemove_self {α : Type} (m : List (Nat × α)) (k : Nat) :
    alGet (alRemove m k) k = none := by
  induction m with
  | nil => simp [alRemove, alGet]
  | cons kv rest ih =>
    cases kv with
    | mk k0 v0 =>
      simp only [alRemove]
      split
      · exact ih
      · rename_i hne
        simp only [alGet, hne, if_neg]
        exact ih

theorem alGet_alRemove_ne {α : Type} (m : List (Nat × α)) (k k' : Nat)
    (hne : k' ≠ k) : alGet (alRemove m k) k' = alGet m k' := by
  have hne' : ¬ (k = k') := fun h => hne (Eq.symm h)
  induction m with
  | nil => simp [alRemove]
  | cons kv rest ih =>
    cases kv with
    | mk k0 v0 =>
      simp only [alRemove]
      split
      · rename_i heq
        subst heq
        simp only [alGet, hne', if_neg]
        exact ih
      · simp only [alGet]
        split
        · rfl
        · exact ih

theorem freeListRemove_store (st : PH) (pages sid : Nat) :
    (freeListRemove st pages sid).store = st.store ∧
    (freeListRemove st pages sid).pmap = st.pmap := by
  unfold freeListRemove
  split <;> exact ⟨rfl, rfl⟩

theorem insertFree_store (st : PH) (sid : Nat) :
    (insertFree st sid).store = st.store ∧ (insertFree st sid).pmap = st.pmap := by
  unfold insertFree
  split
  · exact ⟨rfl, rfl⟩
  · split <;> exact ⟨rfl, rfl⟩

theorem registerSpanEndpoints_store (st : PH) (sid : Nat) :
    (registerSpanEndpoints st sid).store = st.store := by
  unfold registerSpanEndpoints
  split
  · rfl
  · split <;> rfl

theorem pmGet_registerSpanEndpoints (st : PH) (sid : Nat) (r : SpanRec)
    (h : alGet st.store sid = some r) (q : Nat) :
    pmGet (registerSpanEndpoints st sid) q =
      if q = r.startPage ∨ (r.numPages > 1 ∧ q = r.startPage + r.numPages - 1)
      then some sid else pmGet st q := by
  unfold registerSpanEndpoints
  rw [h]
  simp only
  split
  · rename_i hgt
    by_cases h1 : q = r.startPage + r.numPages - 1
    · subst h1
      simp only [pmGet, pmSet, alGet_alSet_self]
      simp [hgt]
    · by_cases h2 : q = r.startPage
      · subst h2
        simp only [pmGet, pmSet]
        rw [alGet_alSet_ne _ _ _ _ h1, alGet_alSet_self]
        simp
      · simp only [pmGet, pmSet]
        rw [alGet_alSet_ne _ _ _ _ h1, alGet_alSet_ne _ _ _ _ h2]
        rw [if_neg (by push_neg; exact ⟨h2, fun _ => h1⟩)]
  · rename_i hle
    by_cases h2 : q = r.startPage
    · subst h2
      simp only [pmGet, pmSet, alGet_alSet_self]
      simp
    · simp only [pmGet, pmSet]
      rw [alGet_alSet_ne _ _ _ _ h2]
      rw [if_neg (by push_neg; exact ⟨h2, fun hgt => absurd hgt hle⟩)]

end RtMalloc
namespace RtMalloc

theorem freeListRemove_pmap (st : PH) (pages sid : Nat) :
    (freeListRemove st pages sid).pmap = st.pmap := by
  unfold freeListRemove
  split <;> rfl

theorem freeListRemove_store2 (st : PH) (pages sid : Nat) :
    (freeListRemove st pages sid).store = st.store := by
  unfold freeListRemove
  split <;> rfl

theorem coalesceLeft_spec (st : PH) (x : Nat) (rx : SpanRec)
    (hx : alGet st.store x = some rx) :
    (coalesceLeft st x = (st, x) ∧
      (rx.startPage ≠ 0 →
        ∀ lid, pmGet st (rx.startPage - 1) = some lid →
          ∀ l, alGet st.store lid = some l →
            l.state = SpanSt.free → l.startPage + l.numPages ≠ rx.startPage)) ∨
    (∃ lid l, rx.startPage ≠ 0 ∧
      pmGet st (rx.startPage - 1) = some lid ∧
      alGet st.store lid = some l ∧ l.state = SpanSt.free ∧
      l.startPage + l.numPages = rx.startPage ∧
      (coalesceLeft st x).2 = lid ∧
      (coalesceLeft st x).1.store =
        alRemove (alSet st.store lid { l with numPages := l.numPages + rx.numPages }) x ∧
      (coalesceLeft st x).1.pmap = st.pmap) := by
  by_cases h0 : rx.startPage = 0
  · left
    constructor
    · simp [coalesceLeft, hx, h0]
    · exact fun hne => absurd h0 hne
  · cases hpm : pmGet st (rx.startPage - 1) with
    | none =>
      left
      constructor
      · simp [coalesceLeft, hx, h0, hpm]
      · exact fun _ lid hlid => nomatch hlid
    | some lid =>
      cases hl : alGet st.store lid with
      | none =>
        left
        constructor
        · simp [coalesceLeft, hx, h0, hpm, hl]
        · intro _ lid2 hlid2 l2 hl2
          cases hlid2
          rw [hl] at hl2
          cases hl2
      | some l =>
        by_cases hst : l.state = SpanSt.free
        · by_cases hcont : l.startPage + l.numPages = rx.startPage
          · right
            refine ⟨lid, l, h0, rfl, hl, hst, hcont, ?_, ?_, ?_⟩
            · simp [coalesceLeft, hx, h0, hpm, hl, hst, hcont]
            · simp [coalesceLeft, hx, h0, hpm, hl, hst, hcont, freeListRemove_store2]
            · simp [coalesceLeft, hx, h0, hpm, hl, hst, hcont, freeListRemove_pmap]
          · left
            constructor
            · simp [coalesceLeft, hx, h0, hpm, hl, hst, hcont]
            · intro _ lid2 hlid2 l2 hl2 _
              cases hlid2
              rw [hl] at hl2
              cases hl2
              exact hcont
        · left
          constructor
          · simp [coalesceLeft, hx, h0, hpm, hl, hst]
          · intro _ lid2 hlid2 l2 hl2 hfree2
            cases hlid2
            rw [hl] at hl2
            cases hl2
            exact absurd hfree2 hst

theorem coalesceRight_spec (st : PH) (x : Nat) (rx : SpanRec)
    (hx : alGet st.store x = some rx) :
    (coalesceRight st x = (st, x) ∧
      (∀ rid, pmGet st rx.endPage = some rid →
        ∀ rr, alGet st.store rid = some rr →
          rr.state = SpanSt.free → rr.startPage ≠ rx.endPage)) ∨
    (∃ rid rr,
      pmGet st rx.endPage = some rid ∧
      alGet st.store rid = some rr ∧ rr.state = SpanSt.free ∧
      rr.startPage = rx.endPage ∧
      (coalesceRight st x).2 = x ∧
      (coalesceRight st x).1.store =
        alRemove (alSet st.store x { rx with numPages := rx.numPages + rr.numPages }) rid ∧
      (coalesceRight st x).1.pmap = st.pmap) := by
  cases hpm : pmGet st rx.endPage with
  | none =>
    left
    constructor
    · simp [coalesceRight, hx, hpm]
    · exact fun rid hrid => nomatch hrid
  | some rid =>
    cases hr : alGet st.store rid with
    | none =>
      left
      constructor
      · simp [coalesceRight, hx, hpm, hr]
      · intro rid2 hrid2 rr2 hrr2
        cases hrid2
        rw [hr] at hrr2
        cases hrr2
    | some rr =>
      by_cases hst : rr.state = SpanSt.free
      · by_cases hcont : rr.startPage = rx.endPage
        · right
          refine ⟨rid, rr, rfl, hr, hst, hcont, ?_, ?_, ?_⟩
          · simp [coalesceRight, hx, hpm, hr, hst, hcont]
          · simp [coalesceRight, hx, hpm, hr, hst, hcont, freeListRemove_store2]
          · simp [coalesceRight, hx, hpm, hr, hst, hcont, freeListRemove_pmap]
        · left
          constructor
          · simp [coalesceRight, hx, hpm, hr, hst, hcont]
          · intro rid2 hrid2 rr2 hrr2 _
            cases hrid2
            rw [hr] at hrr2
            cases hrr2
            exact hcont
      · left
        constructor
        · simp [coalesceRight, hx, hpm, hr, hst]
        · intro rid2 hrid2 rr2 hrr2 hfree2
          cases hrid2
          rw [hr] at hrr2
          cases hrr2
          exact absurd hfree2 hst

end RtMalloc
namespace RtMalloc

theorem left_neighbor_end (st : PH)
    (truthful : ∀ pr ∈ st.pmap, ∀ sr ∈ st.store, sr.1 = pr.2 →
        sr.2.startPage ≤ pr.1 ∧ pr.1 < sr.2.endPage)
    (disj : ∀ sr ∈ st.store, ∀ sr2 ∈ st.store, sr.1 ≠ sr2.1 →
        sr.2.endPage ≤ sr2.2.startPage ∨ sr2.2.endPage ≤ sr.2.startPage)
    (pos : ∀ sr ∈ st.store, 0 < sr.2.numPages)
    {p i j : Nat} {ri rj : SpanRec}
    (hpm : pmGet st p = some i) (hi : alGet st.store i = some ri)
    (hj : alGet st.store j = some rj) (hij : i ≠ j)
    (hp : p + 1 = rj.startPage) :
    ri.endPage = rj.startPage := by
  have hmemP := alGet_mem _ _ _ hpm
  have hb := truthful (p, i) hmemP (i, ri) (alGet_mem _ _ _ hi) rfl
  have hd := disj (i, ri) (alGet_mem _ _ _ hi) (j, rj) (alGet_mem _ _ _ hj) hij
  have hpj := pos (j, rj) (alGet_mem _ _ _ hj)
  have hpi := pos (i, ri) (alGet_mem _ _ _ hi)
  simp only [SpanRec.endPage] at *
  omega

theorem right_neighbor_start (st : PH)
    (truthful : ∀ pr ∈ st.pmap, ∀ sr ∈ st.store, sr.1 = pr.2 →
        sr.2.startPage ≤ pr.1 ∧ pr.1 < sr.2.endPage)
    (disj : ∀ sr ∈ st.store, ∀ sr2 ∈ st.store, sr.1 ≠ sr2.1 →
        sr.2.endPage ≤ sr2.2.startPage ∨ sr2.2.endPage ≤ sr.2.startPage)
    (pos : ∀ sr ∈ st.store, 0 < sr.2.numPages)
    {i j : Nat} {ri rj : SpanRec}
    (hpm : pmGet st rj.endPage = some i) (hi : alGet st.store i = some ri)
    (hj : alGet st.store j = some rj) (hij : i ≠ j) :
    ri.startPage = rj.endPage := by
  have hmemP := alGet_mem _ _ _ hpm
  have hb := truthful (rj.endPage, i) hmemP (i, ri) (alGet_mem _ _ _ hi) rfl
  have hd := disj (i, ri) (alGet_mem _ _ _ hi) (j, rj) (alGet_mem _ _ _ hj) hij
  have hpj := pos (j, rj) (alGet_mem _ _ _ hj)
  have hpi := pos (i, ri) (alGet_mem _ _ _ hi)
  simp only [SpanRec.endPage] at *
  omega

theorem noAdj_general (st st' : PH) (m2 : Nat) (rM rM0 : SpanRec) (Drem : List Nat)
    (truthful : ∀ pr ∈ st.pmap, ∀ sr ∈ st.store, sr.1 = pr.2 →
        sr.2.startPage ≤ pr.1 ∧ pr.1 < sr.2.endPage)
    (disj : ∀ sr ∈ st.store, ∀ sr2 ∈ st.store, sr.1 ≠ sr2.1 →
        sr.2.endPage ≤ sr2.2.startPage ∨ sr2.2.endPage ≤ sr.2.startPage)
    (pos : ∀ sr ∈ st.store, 0 < sr.2.numPages)
    (noadj : ∀ sr ∈ st.store, ∀ sr2 ∈ st.store, sr.2.state = SpanSt.free →
        sr2.2.state = SpanSt.free → sr.1 ≠ sr2.1 → sr.2.endPage ≠ sr2.2.startPage)
    (hm2pre : alGet st.store m2 = some rM0)
    (hstore : ∀ k, alGet st'.store k =
        if k = m2 then some rM else if k ∈ Drem then none else alGet st.store k)
    (hpmap : ∀ q, pmGet st' q =
        if q = rM.startPage ∨ (rM.numPages > 1 ∧ q = rM.startPage + rM.numPages - 1)
        then some m2 else pmGet st q)
    (hpos : 0 < rM.numPages)
    (K1 : ∀ j rj, j ≠ m2 → j ∉ Drem → alGet st.store j = some rj →
        rj.state = SpanSt.free → rj.endPage ≠ rM.startPage)
    (K2 : ∀ j rj, j ≠ m2 → j ∉ Drem → alGet st.store j = some rj →
        rj.state = SpanSt.free → rj.startPage ≠ rM.endPage)
    (K4 : ∀ j rj, j ≠ m2 → j ∉ Drem → alGet st.store j = some rj →
        rM.endPage ≤ rj.startPage ∨ rj.endPage ≤ rM.startPage)
    (K7L : ∀ j rj, j ≠ m2 → j ∉ Drem → alGet st.store j = some rj →
        rj.state = SpanSt.free → rM0.endPage ≠ rj.startPage)
    (K7R : ∀ j rj, j ≠ m2 → j ∉ Drem → alGet st.store j = some rj →
        rj.state = SpanSt.free → rM0.startPage ≠ rj.endPage) :
    NoAdjFreePm st' := by
  intro sid r hsid hrfree
  rw [hstore sid] at hsid
  by_cases hsm : sid = m2
  · rw [if_pos hsm] at hsid
    cases hsid
    constructor
    · intro hs0 j hpmj hjne rj hj hrjf
      rw [hpmap] at hpmj
      rw [if_neg (by
        push_neg
        exact ⟨by omega, fun _ => by omega⟩)] at hpmj
      rw [hstore j] at hj
      rw [if_neg (by rw [hsm] at hjne; exact hjne)] at hj
      by_cases hjD : j ∈ Drem
      · rw [if_pos hjD] at hj; cases hj
      · rw [if_neg hjD] at hj
        have hmemP := alGet_mem _ _ _ hpmj
        have hb := truthful _ hmemP (j, rj) (alGet_mem _ _ _ hj) rfl
        have hd := K4 j rj (by rw [hsm] at hjne; exact hjne) hjD hj
        have hend : rj.endPage = rM.startPage := by
          simp only [SpanRec.endPage] at *
          omega
        exact K1 j rj (by rw [hsm] at hjne; exact hjne) hjD hj hrjf hend
    · intro j hpmj hjne rj hj hrjf
      rw [hpmap] at hpmj
      rw [if_neg (by
        push_neg
        refine ⟨?_, fun _ => ?_⟩
        · simp only [SpanRec.endPage]; omega
        · simp only [SpanRec.endPage]; omega)] at hpmj
      rw [hstore j] at hj
      rw [if_neg (by rw [hsm] at hjne; exact hjne)] at hj
      by_cases hjD : j ∈ Drem
      · rw [if_pos hjD] at hj; cases hj
      · rw [if_neg hjD] at hj
        have hmemP := alGet_mem _ _ _ hpmj
        have hb := truthful _ hmemP (j, rj) (alGet_mem _ _ _ hj) rfl
        have hd := K4 j rj (by rw [hsm] at hjne; exact hjne) hjD hj
        have hstart : rj.startPage = rM.endPage := by
          simp only [SpanRec.endPage] at *
          omega
        exact K2 j rj (by rw [hsm] at hjne; exact hjne) hjD hj hrjf hstart
  · rw [if_neg hsm] at hsid
    by_cases hsD : sid ∈ Drem
    · rw [if_pos hsD] at hsid; cases hsid
    · rw [if_neg hsD] at hsid
      have hrpos := pos _ (alGet_mem _ _ _ hsid)
      constructor
      · intro hs0 j hpmj hjne rj hj hrjf
        rw [hpmap] at hpmj
        by_cases hcond : r.startPage - 1 = rM.startPage ∨
            (rM.numPages > 1 ∧ r.startPage - 1 = rM.startPage + rM.numPages - 1)
        · rw [if_pos hcond] at hpmj
          cases hpmj
          have hd := K4 sid r hsm hsD hsid
          have hMend : rM.endPage = r.startPage := by
            simp only [SpanRec.endPage] at *
            omega
          exact K2 sid r hsm hsD hsid hrfree (by omega)
        · rw [if_neg hcond] at hpmj
          rw [hstore j] at hj
          by_cases hjm : j = m2
          · subst hjm
            have hend : rM0.endPage = r.startPage :=
              left_neighbor_end st truthful disj pos hpmj hm2pre hsid hjne
                (by omega)
            exact K7L sid r hsm hsD hsid hrfree hend
          · rw [if_neg hjm] at hj
            by_cases hjD : j ∈ Drem
            · rw [if_pos hjD] at hj; cases hj
            · rw [if_neg hjD] at hj
              have hend : rj.endPage = r.startPage :=
                left_neighbor_end st truthful disj pos hpmj hj hsid hjne (by omega)
              exact noadj (j, rj) (alGet_mem _ _ _ hj) (sid, r) (alGet_mem _ _ _ hsid)
                hrjf hrfree hjne hend
      · intro j hpmj hjne rj hj hrjf
        rw [hpmap] at hpmj
        by_cases hcond : r.endPage = rM.startPage ∨
            (rM.numPages > 1 ∧ r.endPage = rM.startPage + rM.numPages - 1)
        · rw [if_pos hcond] at hpmj
          cases hpmj
          have hd := K4 sid r hsm hsD hsid
          have hMstart : rM.startPage = r.endPage := by
            simp only [SpanRec.endPage] at *
            omega
          exact K1 sid r hsm hsD hsid hrfree (by omega)
        · rw [if_neg hcond] at hpmj
          rw [hstore j] at hj
          by_cases hjm : j = m2
          · subst hjm
            have hstart : rM0.startPage = r.endPage :=
              right_neighbor_start st truthful disj pos hpmj hm2pre hsid hjne
            exact K7R sid r hsm hsD hsid hrfree hstart
          · rw [if_neg hjm] at hj
            by_cases hjD : j ∈ Drem
            · rw [if_pos hjD] at hj; cases hj
            · rw [if_neg hjD] at hj
              have hstart : rj.startPage = r.endPage :=
                right_neighbor_start st truthful disj pos hpmj hj hsid hjne
              exact noadj (sid, r) (alGet_mem _ _ _ hsid) (j, rj) (alGet_mem _ _ _ hj)
                hrfree hrjf (fun h => hjne h.symm) hstart.symm

end RtMalloc

namespace RtMalloc

theorem dealloc_core (st st1 : PH) (x : Nat) (rx rF : SpanRec)
    (hx : alGet st.store x = some rx)
    (hst1 : st1.store = alSet st.store x rF)
    (hst1p : st1.pmap = st.pmap)
    (hgs : rF.startPage = rx.startPage)
    (hgn : rF.numPages = rx.numPages)
    (truthful : ∀ pr ∈ st.pmap, ∀ sr ∈ st.store, sr.1 = pr.2 →
        sr.2.startPage ≤ pr.1 ∧ pr.1 < sr.2.endPage)
    (freeEnds : ∀ sr ∈ st.store, sr.2.state = SpanSt.free →
        pmGet st sr.2.startPage = some sr.1 ∧ pmGet st (sr.2.endPage - 1) = some sr.1)
    (disj : ∀ sr ∈ st.store, ∀ sr2 ∈ st.store, sr.1 ≠ sr2.1 →
        sr.2.endPage ≤ sr2.2.startPage ∨ sr2.2.endPage ≤ sr.2.startPage)
    (pos : ∀ sr ∈ st.store, 0 < sr.2.numPages)
    (noadj : ∀ sr ∈ st.store, ∀ sr2 ∈ st.store, sr.2.state = SpanSt.free →
        sr2.2.state = SpanSt.free → sr.1 ≠ sr2.1 → sr.2.endPage ≠ sr2.2.startPage) :
    NoAdjFreePm
      (insertFree
        (registerSpanEndpoints
          (coalesceRight (coalesceLeft st1 x).1 (coalesceLeft st1 x).2).1
          (coalesceRight (coalesceLeft st1 x).1 (coalesceLeft st1 x).2).2)
        (coalesceRight (coalesceLeft st1 x).1 (coalesceLeft st1 x).2).2) := by
  have hx1 : alGet st1.store x = some rF := by
    rw [hst1]; exact alGet_alSet_self _ _ _
  have hget1 : ∀ k, k ≠ x → alGet st1.store k = alGet st.store k := by
    intro k hk
    rw [hst1]; exact alGet_alSet_ne _ _ _ _ hk
  have hpm1 : ∀ q, pmGet st1 q = pmGet st q := by
    intro q; unfold pmGet; rw [hst1p]
  have hposx : 0 < rx.numPages := pos (x, rx) (alGet_mem _ _ _ hx)
  rcases coalesceLeft_spec st1 x rF hx1 with ⟨hL, noLeft⟩ |
    ⟨lid, l, h0L, hpmL, hlst1, hlfree, hcontL, hc2, hcstore, hcpmap⟩
  · -- no left merge
    have h1a : (coalesceLeft st1 x).1 = st1 := by rw [hL]
    have h1b : (coalesceLeft st1 x).2 = x := by rw [hL]
    rw [h1a, h1b]
    rcases coalesceRight_spec st1 x rF hx1 with ⟨hR, noRight⟩ |
      ⟨rid, rr, hpmR, hrst1, hrfree2, hcontR, hr2, hrstore, hrpmap⟩
    · -- no right merge either
      have h2a : (coalesceRight st1 x).1 = st1 := by rw [hR]
      have h2b : (coalesceRight st1 x).2 = x := by rw [hR]
      rw [h2a, h2b]
      have hstore : ∀ k, alGet (insertFree (registerSpanEndpoints st1 x) x).store k =
          if k = x then some rF else if k ∈ ([] : List Nat) then none
          else alGet st.store k := by
        intro k
        rw [(insertFree_store _ _).1, registerSpanEndpoints_store]
        by_cases hk : k = x
        · subst hk; rw [if_pos rfl]; exact hx1
        · rw [if_neg hk, if_neg (List.not_mem_nil k)]
          exact hget1 k hk
      have hpmap : ∀ q, pmGet (insertFree (registerSpanEndpoints st1 x) x) q =
          if q = rF.startPage ∨ (rF.numPages > 1 ∧ q = rF.startPage + rF.numPages - 1)
          then some x else pmGet st q := by
        intro q
        have e1 : pmGet (insertFree (registerSpanEndpoints st1 x) x) q =
            pmGet (registerSpanEndpoints st1 x) q := by
          unfold pmGet; rw [(insertFree_store _ _).2]
        rw [e1, pmGet_registerSpanEndpoints st1 x rF hx1 q]
        by_cases hc : q = rF.startPage ∨
            (rF.numPages > 1 ∧ q = rF.startPage + rF.numPages - 1)
        · rw [if_pos hc, if_pos hc]
        · rw [if_neg hc, if_neg hc]; exact hpm1 q
      have K1 : ∀ j rj, j ≠ x → j ∉ ([] : List Nat) → alGet st.store j = some rj →
          rj.state = SpanSt.free → rj.endPage ≠ rF.startPage := by
        intro j rj hjx _ hj hjf hend
        have hfe := (freeEnds (j, rj) (alGet_mem _ _ _ hj) hjf).2
        have hposj : 0 < rj.numPages := pos (j, rj) (alGet_mem _ _ _ hj)
        have hend' : rj.startPage + rj.numPages = rF.startPage := by
          simpa [SpanRec.endPage] using hend
        have h0' : rF.startPage ≠ 0 := by omega
        refine noLeft h0' j ?_ rj ?_ hjf hend'
        · rw [hpm1]
          have e : rF.startPage - 1 = rj.endPage - 1 := by
            simp only [SpanRec.endPage]; omega
          rw [e]; exact hfe
        · rw [hget1 j hjx]; exact hj
      have K2 : ∀ j rj, j ≠ x → j ∉ ([] : List Nat) → alGet st.store j = some rj →
          rj.state = SpanSt.free → rj.startPage ≠ rF.endPage := by
        intro j rj hjx _ hj hjf hstart
        have hfe := (freeEnds (j, rj) (alGet_mem _ _ _ hj) hjf).1
        refine noRight j ?_ rj ?_ hjf hstart
        · rw [hpm1, ← hstart]; exact hfe
        · rw [hget1 j hjx]; exact hj
      have K4 : ∀ j rj, j ≠ x → j ∉ ([] : List Nat) → alGet st.store j = some rj →
          rF.endPage ≤ rj.startPage ∨ rj.endPage ≤ rF.startPage := by
        intro j rj hjx _ hj
        have hd := disj (x, rx) (alGet_mem _ _ _ hx) (j, rj) (alGet_mem _ _ _ hj)
          (fun h => hjx (Eq.symm h))
        simp only [SpanRec.endPage] at hd ⊢
        omega
      have K7L : ∀ j rj, j ≠ x → j ∉ ([] : List Nat) → alGet st.store j = some rj →
          rj.state = SpanSt.free → rx.endPage ≠ rj.startPage := by
        intro j rj hjx _ hj hjf hstart
        have hfe := (freeEnds (j, rj) (alGet_mem _ _ _ hj) hjf).1
        have heq : rF.endPage = rj.startPage := by
          simp only [SpanRec.endPage] at hstart ⊢
          omega
        refine noRight j ?_ rj ?_ hjf (Eq.symm heq)
        · rw [hpm1, heq]; exact hfe
        · rw [hget1 j hjx]; exact hj
      have K7R : ∀ j rj, j ≠ x → j ∉ ([] : List Nat) → alGet st.store j = some rj →
          rj.state = SpanSt.free → rx.startPage ≠ rj.endPage := by
        intro j rj hjx _ hj hjf hend
        have hfe := (freeEnds (j, rj) (alGet_mem _ _ _ hj) hjf).2
        have hposj : 0 < rj.numPages := pos (j, rj) (alGet_mem _ _ _ hj)
        have hend' : rj.startPage + rj.numPages = rF.startPage := by
          simp only [SpanRec.endPage] at hend; omega
        have h0' : rF.startPage ≠ 0 := by omega
        refine noLeft h0' j ?_ rj ?_ hjf hend'
        · rw [hpm1]
          have e : rF.startPage - 1 = rj.endPage - 1 := by
            simp only [SpanRec.endPage]; omega
          rw [e]; exact hfe
        · rw [hget1 j hjx]; exact hj
      exact noAdj_general st _ x rF rx [] truthful disj pos noadj hx hstore hpmap
        (by omega) K1 K2 K4 K7L K7R
    · -- right merge only
      set xM : SpanRec := { rF with numPages := rF.numPages + rr.numPages }
      have hxMs : xM.startPage = rF.startPage := rfl
      have hxMn : xM.numPages = rF.numPages + rr.numPages := rfl
      have hrx2 : rid ≠ x := by
        intro h
        rw [h, hx1] at hrst1
        have he := Option.some.inj hrst1
        rw [← he] at hcontR
        simp only [SpanRec.endPage] at hcontR
        omega
      have hrpre : alGet st.store rid = some rr := by
        rw [← hget1 rid hrx2]; exact hrst1
      have hposr : 0 < rr.numPages := pos (rid, rr) (alGet_mem _ _ _ hrpre)
      have hcontR2 : rr.startPage = rF.startPage + rF.numPages := by
        simpa [SpanRec.endPage] using hcontR
      rw [hr2]
      have hxM : alGet (coalesceRight st1 x).1.store x = some xM := by
        rw [hrstore, alGet_alRemove_ne _ _ _ (fun h => hrx2 (Eq.symm h)),
          alGet_alSet_self]
      have hst2pm : ∀ q, pmGet (coalesceRight st1 x).1 q = pmGet st q := by
        intro q
        have e : pmGet (coalesceRight st1 x).1 q = pmGet st1 q := by
          unfold pmGet; rw [hrpmap]
        rw [e]; exact hpm1 q
      have hstore : ∀ k,
          alGet (insertFree (registerSpanEndpoints (coalesceRight st1 x).1 x) x).store k =
          if k = x then some xM else if k ∈ [rid] then none
          else alGet st.store k := by
        intro k
        rw [(insertFree_store _ _).1, registerSpanEndpoints_store, hrstore]
        by_cases hk : k = x
        · subst hk
          rw [if_pos rfl, alGet_alRemove_ne _ _ _ (fun h => hrx2 (Eq.symm h)),
            alGet_alSet_self]
        · rw [if_neg hk]
          by_cases hk2 : k = rid
          · subst hk2
            rw [alGet_alRemove_self, if_pos (by simp)]
          · rw [alGet_alRemove_ne _ _ _ hk2, alGet_alSet_ne _ _ _ _ hk,
              if_neg (by simp [hk2])]
            exact hget1 k hk
      have hpmap : ∀ q,
          pmGet (insertFree (registerSpanEndpoints (coalesceRight st1 x).1 x) x) q =
          if q = xM.startPage ∨ (xM.numPages > 1 ∧ q = xM.startPage + xM.numPages - 1)
          then some x else pmGet st q := by
        intro q
        have e1 : pmGet (insertFree (registerSpanEndpoints (coalesceRight st1 x).1 x) x) q =
            pmGet (registerSpanEndpoints (coalesceRight st1 x).1 x) q := by
          unfold pmGet; rw [(insertFree_store _ _).2]
        rw [e1, pmGet_registerSpanEndpoints _ x xM hxM q]
        by_cases hc : q = xM.startPage ∨
            (xM.numPages > 1 ∧ q = xM.startPage + xM.numPages - 1)
        · rw [if_pos hc, if_pos hc]
        · rw [if_neg hc, if_neg hc]; exact hst2pm q
      have K1 : ∀ j rj, j ≠ x → j ∉ [rid] → alGet st.store j = some rj →
          rj.state = SpanSt.free → rj.endPage ≠ xM.startPage := by
        intro j rj hjx hjD hj hjf hend
        rw [hxMs] at hend
        have hfe := (freeEnds (j, rj) (alGet_mem _ _ _ hj) hjf).2
        have hposj : 0 < rj.numPages := pos (j, rj) (alGet_mem _ _ _ hj)
        have hend' : rj.startPage + rj.numPages = rF.startPage := by
          simpa [SpanRec.endPage] using hend
        have h0' : rF.startPage ≠ 0 := by omega
        refine noLeft h0' j ?_ rj ?_ hjf hend'
        · rw [hpm1]
          have e : rF.startPage - 1 = rj.endPage - 1 := by
            simp only [SpanRec.endPage]; omega
          rw [e]; exact hfe
        · rw [hget1 j hjx]; exact hj
      have K2 : ∀ j rj, j ≠ x → j ∉ [rid] → alGet st.store j = some rj →
          rj.state = SpanSt.free → rj.startPage ≠ xM.endPage := by
        intro j rj hjx hjD hj hjf hstart
        have hjr : j ≠ rid := fun h => hjD (by simp [h])
        have hstart' : rj.startPage = rr.startPage + rr.numPages := by
          simp only [SpanRec.endPage, hxMs, hxMn] at hstart
          omega
        exact noadj (rid, rr) (alGet_mem _ _ _ hrpre) (j, rj) (alGet_mem _ _ _ hj)
          hrfree2 hjf (fun h => hjr (Eq.symm h))
          (by simp only [SpanRec.endPage]; omega)
      have K4 : ∀ j rj, j ≠ x → j ∉ [rid] → alGet st.store j = some rj →
          xM.endPage ≤ rj.startPage ∨ rj.endPage ≤ xM.startPage := by
        intro j rj hjx hjD hj
        have hjr : j ≠ rid := fun h => hjD (by simp [h])
        have hposj : 0 < rj.numPages := pos (j, rj) (alGet_mem _ _ _ hj)
        have hd1 := disj (x, rx) (alGet_mem _ _ _ hx) (j, rj) (alGet_mem _ _ _ hj)
          (fun h => hjx (Eq.symm h))
        have hd2 := disj (rid, rr) (alGet_mem _ _ _ hrpre) (j, rj) (alGet_mem _ _ _ hj)
          (fun h => hjr (Eq.symm h))
        simp only [SpanRec.endPage, hxMs, hxMn] at hd1 hd2 ⊢
        omega
      have K7L : ∀ j rj, j ≠ x → j ∉ [rid] → alGet st.store j = some rj →
          rj.state = SpanSt.free → rx.endPage ≠ rj.startPage := by
        intro j rj hjx hjD hj hjf hstart
        have hjr : j ≠ rid := fun h => hjD (by simp [h])
        have hposj : 0 < rj.numPages := pos (j, rj) (alGet_mem _ _ _ hj)
        have hd2 := disj (rid, rr) (alGet_mem _ _ _ hrpre) (j, rj) (alGet_mem _ _ _ hj)
          (fun h => hjr (Eq.symm h))
        simp only [SpanRec.endPage] at hstart hd2
        omega
      have K7R : ∀ j rj, j ≠ x → j ∉ [rid] → alGet st.store j = some rj →
          rj.state = SpanSt.free → rx.startPage ≠ rj.endPage := by
        intro j rj hjx hjD hj hjf hend
        have hfe := (freeEnds (j, rj) (alGet_mem _ _ _ hj) hjf).2
        have hposj : 0 < rj.numPages := pos (j, rj) (alGet_mem _ _ _ hj)
        have hend' : rj.startPage + rj.numPages = rF.startPage := by
          simp only [SpanRec.endPage] at hend; omega
        have h0' : rF.startPage ≠ 0 := by omega
        refine noLeft h0' j ?_ rj ?_ hjf hend'
        · rw [hpm1]
          have e : rF.startPage - 1 = rj.endPage - 1 := by
            simp only [SpanRec.endPage]; omega
          rw [e]; exact hfe
        · rw [hget1 j hjx]; exact hj
      exact noAdj_general st _ x xM rx [rid] truthful disj pos noadj hx hstore hpmap
        (by rw [hxMn]; omega) K1 K2 K4 K7L K7R
  · -- left merge happened
    set st2 : PH := (coalesceLeft st1 x).1
    set lM : SpanRec := { l with numPages := l.numPages + rF.numPages }
    have hlMs : lM.startPage = l.startPage := rfl
    have hlMn : lM.numPages = l.numPages + rF.numPages := rfl
    have hlx : lid ≠ x := by
      intro h
      rw [h, hx1] at hlst1
      have he := Option.some.inj hlst1
      rw [← he] at hcontL
      omega
    have hlpre : alGet st.store lid = some l := by
      rw [← hget1 lid hlx]; exact hlst1
    have hposl : 0 < l.numPages := pos (lid, l) (alGet_mem _ _ _ hlpre)
    have hcontL2 : l.startPage + l.numPages = rx.startPage := by omega
    have hlM : alGet st2.store lid = some lM := by
      rw [hcstore, alGet_alRemove_ne _ _ _ hlx, alGet_alSet_self]
    have hst2pm : ∀ q, pmGet st2 q = pmGet st q := by
      intro q
      have e : pmGet st2 q = pmGet st1 q := by unfold pmGet; rw [hcpmap]
      rw [e]; exact hpm1 q
    have hst2store : ∀ k, k ≠ lid → k ≠ x → alGet st2.store k = alGet st.store k := by
      intro k h1 h2
      rw [hcstore, alGet_alRemove_ne _ _ _ h2, alGet_alSet_ne _ _ _ _ h1]
      exact hget1 k h2
    have hst2x : alGet st2.store x = none := by
      rw [hcstore, alGet_alRemove_self]
    rw [hc2]
    rcases coalesceRight_spec st2 lid lM hlM with ⟨hR, noRight⟩ |
      ⟨rid2, rr, hpmR2, hrst2, hrfree2, hcontR2, hr2b, hrstore2, hrpmap2⟩
    · -- left merge only
      have h2a : (coalesceRight st2 lid).1 = st2 := by rw [hR]
      have h2b : (coalesceRight st2 lid).2 = lid := by rw [hR]
      rw [h2a, h2b]
      have hstore : ∀ k, alGet (insertFree (registerSpanEndpoints st2 lid) lid).store k =
          if k = lid then some lM else if k ∈ [x] then none
          else alGet st.store k := by
        intro k
        rw [(insertFree_store _ _).1, registerSpanEndpoints_store]
        by_cases hk : k = lid
        · subst hk; rw [if_pos rfl]; exact hlM
        · rw [if_neg hk]
          by_cases hk2 : k = x
          · subst hk2
            rw [if_pos (by simp)]
            exact hst2x
          · rw [if_neg (by simp [hk2])]
            exact hst2store k hk hk2
      have hpmap : ∀ q, pmGet (insertFree (registerSpanEndpoints st2 lid) lid) q =
          if q = lM.startPage ∨ (lM.numPages > 1 ∧ q = lM.startPage + lM.numPages - 1)
          then some lid else pmGet st q := by
        intro q
        have e1 : pmGet (insertFree (registerSpanEndpoints st2 lid) lid) q =
            pmGet (registerSpanEndpoints st2 lid) q := by
          unfold pmGet; rw [(insertFree_store _ _).2]
        rw [e1, pmGet_registerSpanEndpoints st2 lid lM hlM q]
        by_cases hc : q = lM.startPage ∨
            (lM.numPages > 1 ∧ q = lM.startPage + lM.numPages - 1)
        · rw [if_pos hc, if_pos hc]
        · rw [if_neg hc, if_neg hc]; exact hst2pm q
      have K1 : ∀ j rj, j ≠ lid → j ∉ [x] → alGet st.store j = some rj →
          rj.state = SpanSt.free → rj.endPage ≠ lM.startPage := by
        intro j rj hjl hjD hj hjf hend
        rw [hlMs] at hend
        exact noadj (j, rj) (alGet_mem _ _ _ hj) (lid, l) (alGet_mem _ _ _ hlpre)
          hjf hlfree hjl hend
      have K2 : ∀ j rj, j ≠ lid → j ∉ [x] → alGet st.store j = some rj →
          rj.state = SpanSt.free → rj.startPage ≠ lM.endPage := by
        intro j rj hjl hjD hj hjf hstart
        have hjx2 : j ≠ x := fun h => hjD (by simp [h])
        have hfe := (freeEnds (j, rj) (alGet_mem _ _ _ hj) hjf).1
        refine noRight j ?_ rj ?_ hjf hstart
        · rw [hst2pm, ← hstart]; exact hfe
        · rw [hst2store j hjl hjx2]; exact hj
      have K4 : ∀ j rj, j ≠ lid → j ∉ [x] → alGet st.store j = some rj →
          lM.endPage ≤ rj.startPage ∨ rj.endPage ≤ lM.startPage := by
        intro j rj hjl hjD hj
        have hjx2 : j ≠ x := fun h => hjD (by simp [h])
        have hposj : 0 < rj.numPages := pos (j, rj) (alGet_mem _ _ _ hj)
        have hd1 := disj (lid, l) (alGet_mem _ _ _ hlpre) (j, rj) (alGet_mem _ _ _ hj)
          (fun h => hjl (Eq.symm h))
        have hd2 := disj (x, rx) (alGet_mem _ _ _ hx) (j, rj) (alGet_mem _ _ _ hj)
          (fun h => hjx2 (Eq.symm h))
        simp only [SpanRec.endPage, hlMs, hlMn] at hd1 hd2 ⊢
        omega
      have K7L : ∀ j rj, j ≠ lid → j ∉ [x] → alGet st.store j = some rj →
          rj.state = SpanSt.free → l.endPage ≠ rj.startPage := by
        intro j rj hjl hjD hj hjf hstart
        have hjx2 : j ≠ x := fun h => hjD (by simp [h])
        have hposj : 0 < rj.numPages := pos (j, rj) (alGet_mem _ _ _ hj)
        have hd2 := disj (x, rx) (alGet_mem _ _ _ hx) (j, rj) (alGet_mem _ _ _ hj)
          (fun h => hjx2 (Eq.symm h))
        simp only [SpanRec.endPage] at hstart hd2
        omega
      have K7R : ∀ j rj, j ≠ lid → j ∉ [x] → alGet st.store j = some rj →
          rj.state = SpanSt.free → l.startPage ≠ rj.endPage := by
        intro j rj hjl hjD hj hjf hend
        exact noadj (j, rj) (alGet_mem _ _ _ hj) (lid, l) (alGet_mem _ _ _ hlpre)
          hjf hlfree hjl (Eq.symm hend)
      exact noAdj_general st _ lid lM l [x] truthful disj pos noadj hlpre hstore hpmap
        (by rw [hlMn]; omega) K1 K2 K4 K7L K7R
    · -- both sides merged
      set lM2 : SpanRec := { lM with numPages := lM.numPages + rr.numPages }
      have hlM2s : lM2.startPage = lM.startPage := rfl
      have hlM2n : lM2.numPages = lM.numPages + rr.numPages := rfl
      have hr2l : rid2 ≠ lid := by
        intro h
        rw [h, hlM] at hrst2
        have he := Option.some.inj hrst2
        rw [← he] at hcontR2
        simp only [SpanRec.endPage, hlMs, hlMn] at hcontR2
        omega
      have hr2x : rid2 ≠ x := by
        intro h
        rw [h, hst2x] at hrst2
        exact Option.noConfusion hrst2
      have hrpre2 : alGet st.store rid2 = some rr := by
        rw [← hst2store rid2 hr2l hr2x]; exact hrst2
      have hposr2 : 0 < rr.numPages := pos (rid2, rr) (alGet_mem _ _ _ hrpre2)
      have hcontR3 : rr.startPage = l.startPage + l.numPages + rF.numPages := by
        have h := hcontR2
        simp only [SpanRec.endPage, hlMs, hlMn] at h
        omega
      rw [hr2b]
      have hlM2 : alGet (coalesceRight st2 lid).1.store lid = some lM2 := by
        rw [hrstore2, alGet_alRemove_ne _ _ _ (fun h => hr2l (Eq.symm h)),
          alGet_alSet_self]
      have hst3pm : ∀ q, pmGet (coalesceRight st2 lid).1 q = pmGet st q := by
        intro q
        have e : pmGet (coalesceRight st2 lid).1 q = pmGet st2 q := by
          unfold pmGet; rw [hrpmap2]
        rw [e]; exact hst2pm q
      have hstore : ∀ k,
          alGet (insertFree (registerSpanEndpoints (coalesceRight st2 lid).1 lid) lid).store k =
          if k = lid then some lM2 else if k ∈ [x, rid2] then none
          else alGet st.store k := by
        intro k
        rw [(insertFree_store _ _).1, registerSpanEndpoints_store, hrstore2]
        by_cases hk : k = lid
        · subst hk
          rw [if_pos rfl, alGet_alRemove_ne _ _ _ (fun h => hr2l (Eq.symm h)),
            alGet_alSet_self]
        · rw [if_neg hk]
          by_cases hk2 : k = rid2
          · subst hk2
            rw [alGet_alRemove_self, if_pos (by simp)]
          · rw [alGet_alRemove_ne _ _ _ hk2, alGet_alSet_ne _ _ _ _ hk]
            by_cases hk3 : k = x
            · subst hk3
              rw [if_pos (by simp)]
              exact hst2x
            · rw [if_neg (by simp [hk3, hk2])]
              exact hst2store k hk hk3
      have hpmap : ∀ q,
          pmGet (insertFree (registerSpanEndpoints (coalesceRight st2 lid).1 lid) lid) q =
          if q = lM2.startPage ∨ (lM2.numPages > 1 ∧ q = lM2.startPage + lM2.numPages - 1)
          then some lid else pmGet st q := by
        intro q
        have e1 : pmGet (insertFree (registerSpanEndpoints (coalesceRight st2 lid).1 lid) lid) q =
            pmGet (registerSpanEndpoints (coalesceRight st2 lid).1 lid) q := by
          unfold pmGet; rw [(insertFree_store _ _).2]
        rw [e1, pmGet_registerSpanEndpoints _ lid lM2 hlM2 q]
        by_cases hc : q = lM2.startPage ∨
            (lM2.numPages > 1 ∧ q = lM2.startPage + lM2.numPages - 1)
        · rw [if_pos hc, if_pos hc]
        · rw [if_neg hc, if_neg hc]; exact hst3pm q
      have K1 : ∀ j rj, j ≠ lid → j ∉ [x, rid2] → alGet st.store j = some rj →
          rj.state = SpanSt.free → rj.endPage ≠ lM2.startPage := by
        intro j rj hjl hjD hj hjf hend
        rw [hlM2s, hlMs] at hend
        exact noadj (j, rj) (alGet_mem _ _ _ hj) (lid, l) (alGet_mem _ _ _ hlpre)
          hjf hlfree hjl hend
      have K2 : ∀ j rj, j ≠ lid → j ∉ [x, rid2] → alGet st.store j = some rj →
          rj.state = SpanSt.free → rj.startPage ≠ lM2.endPage := by
        intro j rj hjl hjD hj hjf hstart
        have hjr : j ≠ rid2 := fun h => hjD (by simp [h])
        have hstart' : rj.startPage = rr.startPage + rr.numPages := by
          simp only [SpanRec.endPage, hlM2s, hlM2n, hlMs, hlMn] at hstart
          omega
        exact noadj (rid2, rr) (alGet_mem _ _ _ hrpre2) (j, rj) (alGet_mem _ _ _ hj)
          hrfree2 hjf (fun h => hjr (Eq.symm h))
          (by simp only [SpanRec.endPage]; omega)
      have K4 : ∀ j rj, j ≠ lid → j ∉ [x, rid2] → alGet st.store j = some rj →
          lM2.endPage ≤ rj.startPage ∨ rj.endPage ≤ lM2.startPage := by
        intro j rj hjl hjD hj
        have hjx2 : j ≠ x := fun h => hjD (by simp [h])
        have hjr : j ≠ rid2 := fun h => hjD (by simp [h])
        have hposj : 0 < rj.numPages := pos (j, rj) (alGet_mem _ _ _ hj)
        have hd1 := disj (lid, l) (alGet_mem _ _ _ hlpre) (j, rj) (alGet_mem _ _ _ hj)
          (fun h => hjl (Eq.symm h))
        have hd2 := disj (x, rx) (alGet_mem _ _ _ hx) (j, rj) (alGet_mem _ _ _ hj)
          (fun h => hjx2 (Eq.symm h))
        have hd3 := disj (rid2, rr) (alGet_mem _ _ _ hrpre2) (j, rj) (alGet_mem _ _ _ hj)
          (fun h => hjr (Eq.symm h))
        simp only [SpanRec.endPage, hlM2s, hlM2n, hlMs, hlMn] at hd1 hd2 hd3 ⊢
        omega
      have K7L : ∀ j rj, j ≠ lid → j ∉ [x, rid2] → alGet st.store j = some rj →
          rj.state = SpanSt.free → l.endPage ≠ rj.startPage := by
        intro j rj hjl hjD hj hjf hstart
        have hjx2 : j ≠ x := fun h => hjD (by simp [h])
        have hposj : 0 < rj.numPages := pos (j, rj) (alGet_mem _ _ _ hj)
        have hd2 := disj (x, rx) (alGet_mem _ _ _ hx) (j, rj) (alGet_mem _ _ _ hj)
          (fun h => hjx2 (Eq.symm h))
        simp only [SpanRec.endPage] at hstart hd2
        omega
      have K7R : ∀ j rj, j ≠ lid → j ∉ [x, rid2] → alGet st.store j = some rj →
          rj.state = SpanSt.free → l.startPage ≠ rj.endPage := by
        intro j rj hjl hjD hj hjf hend
        exact noadj (j, rj) (alGet_mem _ _ _ hj) (lid, l) (alGet_mem _ _ _ hlpre)
          hjf hlfree hjl (Eq.symm hend)
      exact noAdj_general st _ lid lM2 l [x, rid2] truthful disj pos noadj hlpre
        hstore hpmap (by rw [hlM2n, hlMn]; omega) K1 K2 K4 K7L K7R

end RtMalloc

namespace RtMalloc

/-- **C7.** Adjacent Free spans never coexist: starting from a page heap
whose page map is truthful, whose free spans have both endpoints
registered, whose spans are pairwise disjoint and non-empty, and which
already satisfies the no-adjacent-free invariant, `deallocate_span`
re-establishes the invariant — for every Free span in the result, neither
the page before its start nor the page after its last page maps to
another Free span, because coalescing with a Free left neighbour and a
Free right neighbour is performed eagerly before the span is inserted
into a free list. -/
theorem deallocate_span_no_adjacent_free (st : PH) (x : Nat) (rx : SpanRec)
    (hx : alGet st.store x = some rx)
    (truthful : ∀ pr ∈ st.pmap, ∀ sr ∈ st.store, sr.1 = pr.2 →
        sr.2.startPage ≤ pr.1 ∧ pr.1 < sr.2.endPage)
    (freeEnds : ∀ sr ∈ st.store, sr.2.state = SpanSt.free →
        pmGet st sr.2.startPage = some sr.1 ∧ pmGet st (sr.2.endPage - 1) = some sr.1)
    (disj : ∀ sr ∈ st.store, ∀ sr2 ∈ st.store, sr.1 ≠ sr2.1 →
        sr.2.endPage ≤ sr2.2.startPage ∨ sr2.2.endPage ≤ sr.2.startPage)
    (pos : ∀ sr ∈ st.store, 0 < sr.2.numPages)
    (noadj : ∀ sr ∈ st.store, ∀ sr2 ∈ st.store, sr.2.state = SpanSt.free →
        sr2.2.state = SpanSt.free → sr.1 ≠ sr2.1 → sr.2.endPage ≠ sr2.2.startPage) :
    NoAdjFreePm (deallocateSpan st x) := by
  have h := dealloc_core st { st with store := alSet st.store x ({ rx with state := SpanSt.free, sizeClass := 0, freelist := [], allocatedCount := 0, totalCount := 0 }) } x rx ({ rx with state := SpanSt.free, sizeClass := 0, freelist := [], allocatedCount := 0, totalCount := 0 }) hx rfl rfl rfl rfl truthful freeEnds disj pos noadj
  unfold deallocateSpan
  rw [hx]
  exact h

/-- Witness: the C7 theorem applied to the concrete two-span heap, each
well-formedness hypothesis evaluated on it. -/
theorem deallocate_span_no_adjacent_free_witness :
    alGet c7PH.store 1 = some c7Rec ∧ NoAdjFreePm (deallocateSpan c7PH 1) :=
  ⟨rfl, deallocate_span_no_adjacent_free c7PH 1 c7Rec rfl (by decide) (by decide)
    (by decide) (by decide) (by decide)⟩

end RtMalloc
